import Mathlib

/-!
Verification development for the pdfbot task/session orchestration layer.

The definitions below are a shallow embedding of the Python sources:
  * `Modules/rate_limiter.py`   — sliding-window rate limiter,
  * `Modules/core.py` / `Modules/pdf_cmd.py` — the active-task registry,
  * `Modules/redis_session.py`  — the Redis (cache) session backend,
  * `Modules/supabase_client.py` — the Supabase (persistent) backend and the
    in-memory fallback `_memory_store`,
  * `Modules/session_adapter.py` — the backend-selecting adapter.

Modelling conventions, used uniformly:
  * Python `float` timestamps (`time.time()`) are modelled as `ℚ`;
    integers stored with `int(time.time())` are modelled with `pyInt`,
    Python's `int()` truncation toward zero.
  * Python dicts are modelled as association lists in insertion order;
    `d[k] = v` is `astore`, `del d[k]` / `pop` is `aremove`, membership and
    reads are `alookup`.  `defaultdict(deque)` reads of a missing key give `[]`.
  * External stores (Redis, the Supabase tables and its object storage) are
    modelled in their no-failure behaviour: every claim under study concerns
    the logic layered on top of them, and the sources wrap each call in
    `try/except` that only logs.  Redis key TTLs (`setex`) are not modelled:
    no claim under study depends on cache expiry.
  * The Python `sorted(..., key=...)` and the store's ascending `order(...)`
    query are modelled with the stable `List.mergeSort`.
-/

/-! ### Python `int()` truncation -/

/-- Python `int(x)` for a float `x`: truncation toward zero. -/
def pyInt (x : ℚ) : ℤ := if 0 ≤ x then ⌊x⌋ else -⌊-x⌋

/-! ### Association-list primitives (Python dict in insertion order) -/

/-- Read `d[k]` (as `Option`): first binding of `k`. -/
def alookup {α β : Type} [DecidableEq α] : List (α × β) → α → Option β
  | [], _ => none
  | p :: rest, k => if p.1 = k then some p.2 else alookup rest k

/-- Python `d[k] = v`: overwrite the binding in place, else append. -/
def astore {α β : Type} [DecidableEq α] (k : α) (v : β) : List (α × β) → List (α × β)
  | [] => [(k, v)]
  | p :: rest => if p.1 = k then (k, v) :: rest else p :: astore k v rest

/-- Python `del d[k]` / `d.pop(k, None)`: drop the binding(s) of `k`. -/
def aremove {α β : Type} [DecidableEq α] (k : α) : List (α × β) → List (α × β)
  | [] => []
  | p :: rest => if p.1 = k then aremove k rest else p :: aremove k rest

/-! ### `Modules/rate_limiter.py` -/

abbrev UserId := Int

/-- Constructor arguments of `RateLimiter.__init__` (fixed per instance). -/
structure RLConfig where
  max_requests : Nat
  window_seconds : ℚ
deriving DecidableEq

/-- Mutable state of one `RateLimiter`: `self.user_requests` (dict of deques
of float timestamps, insertion order) and `self.last_cleanup`.
`self.cleanup_interval` is the constant `300`. -/
structure RLState where
  user_requests : List (UserId × List ℚ)
  last_cleanup : ℚ
deriving DecidableEq

/-- `self.user_requests[user_id]` under `defaultdict(deque)`: a missing user
reads as the empty deque. -/
def lookupTimes (l : List (UserId × List ℚ)) (u : UserId) : List ℚ :=
  (alookup l u).getD []

/-- The eviction loop of `check_rate_limit` (lines 82-83):
`while timestamps and timestamps[0] < window_start: timestamps.popleft()`. -/
def evictOld (cutoff : ℚ) : List ℚ → List ℚ
  | [] => []
  | t :: ts => if t < cutoff then evictOld cutoff ts else t :: ts

/-- The removal loop of `_cleanup_old_entries` (lines 52-58): drop every user
whose deque is nonempty with `timestamps[-1] < inactive_threshold`. -/
def removeInactive (threshold : ℚ) : List (UserId × List ℚ) → List (UserId × List ℚ)
  | [] => []
  | p :: rest =>
    match p.2.getLast? with
    | none => p :: removeInactive threshold rest
    | some t =>
      if t < threshold then removeInactive threshold rest
      else p :: removeInactive threshold rest

/-- `RateLimiter._cleanup_old_entries` (lines 41-63): a no-op within
`cleanup_interval = 300` seconds of the last sweep; otherwise removes every
user whose last timestamp is older than `now - 600` and stamps
`last_cleanup = now`. -/
def cleanup_old_entries (now : ℚ) (st : RLState) : RLState :=
  if now - st.last_cleanup < 300 then st
  else { user_requests := removeInactive (now - 600) st.user_requests, last_cleanup := now }

/-- `RateLimiter.check_rate_limit` (lines 65-99), with `now` passed in place
of `time.time()`.  Returns the `(is_allowed, seconds_to_wait)` pair and the
successor state.  On rejection the wait is `int(oldest + window - now) + 1`.
(For `max_requests = 0` the source would raise `IndexError` on the empty
deque; the model reads `headD 0` there, a state no claim exercises.) -/
def check_rate_limit (cfg : RLConfig) (now : ℚ) (u : UserId) (st : RLState) :
    (Bool × ℤ) × RLState :=
  let ts := lookupTimes st.user_requests u
  let ts2 := evictOld (now - cfg.window_seconds) ts
  if ts2.length < cfg.max_requests then
    ((true, 0),
      cleanup_old_entries now
        { st with user_requests := astore u (ts2 ++ [now]) st.user_requests })
  else
    ((false, pyInt (ts2.headD 0 + cfg.window_seconds - now) + 1),
      { st with user_requests := astore u ts2 st.user_requests })

/-- `RateLimiter.__init__`: empty request map, `last_cleanup = time.time()`. -/
def initRateLimiter (t0 : ℚ) : RLState :=
  { user_requests := [], last_cleanup := t0 }

/-- Run a sequence of `check_rate_limit` calls, each a (time, user) pair. -/
def runCalls (cfg : RLConfig) : List (ℚ × UserId) → RLState → RLState
  | [], st => st
  | c :: rest, st => runCalls cfg rest (check_rate_limit cfg c.1 c.2 st).2

/-- Run a sequence of calls, logging each call with its returned pair. -/
def runLog (cfg : RLConfig) : List (ℚ × UserId) → RLState → List ((ℚ × UserId) × (Bool × ℤ))
  | [], _ => []
  | c :: rest, st =>
    (c, (check_rate_limit cfg c.1 c.2 st).1) :: runLog cfg rest (check_rate_limit cfg c.1 c.2 st).2

/-- The times of the admitted calls of user `u` in a run, in call order. -/
def admittedTimes (cfg : RLConfig) (cs : List (ℚ × UserId)) (st : RLState) (u : UserId) :
    List ℚ :=
  (runLog cfg cs st).filterMap (fun e => if e.1.2 = u ∧ e.2.1 = true then some e.1.1 else none)

/-- The calls of user `u` in a trace, in call order. -/
def callsOf (u : UserId) (cs : List (ℚ × UserId)) : List (ℚ × UserId) :=
  cs.filter (fun c => c.2 == u)

/-! ### Reference semantics of the sliding window

The refinement target: a per-user history of admitted request times.  The
code state is related to it by `RLInv` below; decisions of
`check_rate_limit` coincide with `specStep` (proved later). -/

/-- Per-user admitted-request history. -/
def History := UserId → List ℚ

/-- The sublist of a time list at or after a cutoff. -/
def keepRecent (cutoff : ℚ) : List ℚ → List ℚ
  | [] => []
  | a :: as => if cutoff ≤ a then a :: keepRecent cutoff as else keepRecent cutoff as

/-- Reference decision: admit iff fewer than `max_requests` admitted times lie
in the trailing window; on rejection report the code's wait for the oldest
in-window admitted time. -/
def specStep (cfg : RLConfig) (now : ℚ) (u : UserId) (A : History) :
    (Bool × ℤ) × History :=
  let win := keepRecent (now - cfg.window_seconds) (A u)
  if win.length < cfg.max_requests then
    ((true, 0), Function.update A u (A u ++ [now]))
  else
    ((false, pyInt (win.headD 0 + cfg.window_seconds - now) + 1), A)

/-- Reference run over a call trace. -/
def specRun (cfg : RLConfig) : List (ℚ × UserId) → History → History
  | [], A => A
  | c :: rest, A => specRun cfg rest (specStep cfg c.1 c.2 A).2

/-- Reference run with a log of the calls and their results. -/
def specLog (cfg : RLConfig) : List (ℚ × UserId) → History → List ((ℚ × UserId) × (Bool × ℤ))
  | [], _ => []
  | c :: rest, A =>
    (c, (specStep cfg c.1 c.2 A).1) :: specLog cfg rest (specStep cfg c.1 c.2 A).2

/-- The times of the admitted calls of user `u` in a reference run. -/
def specAdmitted (cfg : RLConfig) (cs : List (ℚ × UserId)) (A : History) (u : UserId) :
    List ℚ :=
  (specLog cfg cs A).filterMap (fun e => if e.1.2 = u ∧ e.2.1 = true then some e.1.1 else none)

/-- Refinement invariant tying the limiter state to the admitted history `A`
at a time bound `T` (all past call times are `≤ T`, all future ones `≥ T`):
each history is sorted with entries `≤ T`; each stored deque is a sublist of
the history holding at least its entries at or after `T - window`. -/
def RLInv (cfg : RLConfig) (T : ℚ) (A : History) (st : RLState) : Prop :=
  ((st.user_requests.map Prod.fst).Nodup) ∧
  ∀ u : UserId,
    (A u).Sorted (· ≤ ·) ∧ (∀ a ∈ A u, a ≤ T) ∧
    (lookupTimes st.user_requests u).Sublist (A u) ∧
    (keepRecent (T - cfg.window_seconds) (A u)).Sublist (lookupTimes st.user_requests u)

/-! ### The active-task registry (`Modules/core.py`, `Modules/pdf_cmd.py`) -/

/-- One entry of the `active_tasks` dict: `{'cancelled': False, 'progress': 0}`. -/
structure TaskEntry where
  cancelled : Bool
  progress : Int
deriving DecidableEq

/-- The global `active_tasks` dict (task id → entry). -/
abbrev TaskRegistry := List (String × TaskEntry)

/-- Registration (`core.py` line 126):
`active_tasks[task_id] = {'cancelled': False, 'progress': 0}` — an
unconditional dict assignment, overwriting any present entry. -/
def register_task (tid : String) (r : TaskRegistry) : TaskRegistry :=
  astore tid { cancelled := false, progress := 0 } r

/-- Cancellation (`pdf_cmd.py` lines 96-97):
`if task_id in active_tasks: active_tasks[task_id]['cancelled'] = True`. -/
def cancel_task (tid : String) (r : TaskRegistry) : TaskRegistry :=
  match alookup r tid with
  | some e => astore tid { e with cancelled := true } r
  | none => r

/-- Removal (`core.py` lines 352-353 and the cleanup paths):
`if task_id in active_tasks: del active_tasks[task_id]`. -/
def release_task (tid : String) (r : TaskRegistry) : TaskRegistry :=
  match alookup r tid with
  | some _ => aremove tid r
  | none => r

/-- The registry mutations the sources perform on `active_tasks`. -/
inductive TaskOp where
  | reg (tid : String)
  | cancel (tid : String)
  | release (tid : String)
deriving DecidableEq

def applyTaskOp (r : TaskRegistry) : TaskOp → TaskRegistry
  | TaskOp.reg tid => register_task tid r
  | TaskOp.cancel tid => cancel_task tid r
  | TaskOp.release tid => release_task tid r

def applyTaskOps (ops : List TaskOp) (r : TaskRegistry) : TaskRegistry :=
  ops.foldl applyTaskOp r

/-! ### `Modules/redis_session.py` -/

/-- One element of a session's `images` list (lines 179-183). -/
structure RedisImage where
  path : String
  order : Int
  added_at : ℤ
deriving DecidableEq

/-- The JSON session record stored under `session:{sid}` (lines 88-93). -/
structure RedisSession where
  user_id : Int
  created_at : ℤ
  images : List RedisImage
  metadata : List (String × String)
deriving DecidableEq

/-- The two keyspaces the module uses: `session:{sid}` records and the
`user_session:{uid}` lookup keys. -/
structure RedisDB where
  sessions : List (String × RedisSession)
  user_sessions : List (Int × String)
deriving DecidableEq

/-- A `RedisSessionStorage`: its `is_enabled` flag and the store behind it. -/
structure RedisStorage where
  enabled : Bool
  db : RedisDB
deriving DecidableEq

/-- `f"{user_id}_{int(time.time())}"`. -/
def mkSessionId (uid : Int) (t : ℤ) : String :=
  toString uid ++ "_" ++ toString t

/-- Python `dict.update(m)`: merge `m` into a metadata dict. -/
def dictUpdate (old m : List (String × String)) : List (String × String) :=
  m.foldl (fun acc p => astore p.1 p.2 acc) old

/-- Stable sort of an image list by its `order` field:
`sorted(session_data["images"], key=lambda x: x["order"])`. -/
def sortByOrder (imgs : List RedisImage) : List RedisImage :=
  imgs.mergeSort (fun a b => decide (a.order ≤ b.order))

/-- `RedisSessionStorage.create_session` (lines 72-113). -/
def redis_create_session (uid : Int) (now : ℤ) (meta : List (String × String))
    (r : RedisStorage) : Option String × RedisStorage :=
  if r.enabled then
    let sid := mkSessionId uid now
    let sdata : RedisSession := { user_id := uid, created_at := now, images := [], metadata := meta }
    (some sid,
      { r with db := { sessions := astore sid sdata r.db.sessions,
                       user_sessions := astore uid sid r.db.user_sessions } })
  else (none, r)

/-- `RedisSessionStorage.get_session_data` (lines 135-155). -/
def redis_get_session_data (sid : String) (r : RedisStorage) : Option RedisSession :=
  if r.enabled then alookup r.db.sessions sid else none

/-- `RedisSessionStorage.add_image` (lines 157-195): append the new image
record to the session's list and write the record back. -/
def redis_add_image (sid : String) (image_path : String) (order : Int) (now : ℤ)
    (r : RedisStorage) : Bool × RedisStorage :=
  if r.enabled then
    match redis_get_session_data sid r with
    | none => (false, r)
    | some s =>
      (true,
        { r with db := { r.db with
            sessions := astore sid
              { s with images := s.images ++ [{ path := image_path, order := order, added_at := now }] }
              r.db.sessions } })
  else (false, r)

/-- `RedisSessionStorage.get_session_images` (lines 197-220): sort the stored
image records by `order` and return their paths. -/
def redis_get_session_images (sid : String) (r : RedisStorage) : List String :=
  if r.enabled then
    match redis_get_session_data sid r with
    | none => []
    | some s => (sortByOrder s.images).map (fun img => img.path)
  else []

/-- `RedisSessionStorage.delete_session` (lines 222-249): read the record to
learn its `user_id`, delete `session:{sid}`, and — whenever the record was
found — delete `user_session:{user_id}` as well, unconditionally. -/
def redis_delete_session (sid : String) (r : RedisStorage) : Bool × RedisStorage :=
  if r.enabled then
    let sdata := redis_get_session_data sid r
    let db1 : RedisDB := { r.db with sessions := aremove sid r.db.sessions }
    match sdata with
    | some s =>
      (true, { r with db := { db1 with user_sessions := aremove s.user_id db1.user_sessions } })
    | none => (true, { r with db := db1 })
  else (false, r)

/-- `RedisSessionStorage.update_metadata` (lines 251-283). -/
def redis_update_metadata (sid : String) (m : List (String × String))
    (r : RedisStorage) : Bool × RedisStorage :=
  if r.enabled then
    match redis_get_session_data sid r with
    | none => (false, r)
    | some s =>
      (true,
        { r with db := { r.db with
            sessions := astore sid { s with metadata := dictUpdate s.metadata m } r.db.sessions } })
  else (false, r)

/-- `RedisSessionStorage.get_user_session` (lines 115-133). -/
def redis_get_user_session (uid : Int) (r : RedisStorage) : Option String :=
  if r.enabled then alookup r.db.user_sessions uid else none

/-! ### `Modules/supabase_client.py` -/

/-- A row of the `multipdf_sessions` table. -/
structure SBSessionRow where
  session_id : String
  user_id : Int
  status : String
  created_at : ℤ
  updated_at : ℤ
deriving DecidableEq

/-- A row of the `session_images` table. -/
structure SBImageRow where
  session_id : String
  image_path : String
  image_order : Int
  created_at : ℤ
deriving DecidableEq

/-- The persistent store: the two tables and the `images` storage bucket
(object paths). -/
structure SupabaseDB where
  multipdf_sessions : List SBSessionRow
  session_images : List SBImageRow
  storage_objects : List String
deriving DecidableEq

/-- A `_memory_store` session record (lines 137-142). -/
structure MemSession where
  user_id : Int
  status : String
  images : List String
  created_at : ℤ
deriving DecidableEq

/-- The module state: the `USE_SUPABASE` mode flag fixed at import, the
persistent store, and `_memory_store`.  Every `_memory_store` key the module
ever writes is `f"session_{session_id}"`; the fixed injective prefix is
dropped and entries are keyed by `session_id` directly. -/
structure SupaState where
  use_supabase : Bool
  db : SupabaseDB
  memory_store : List (String × MemSession)
deriving DecidableEq

/-- `f"sessions/{session_id}/{order}.jpg"` (line 153). -/
def mkStoragePath (sid : String) (order : Int) : String :=
  "sessions/" ++ sid ++ "/" ++ toString order ++ ".jpg"

/-- `f"{session_temp_folder}/image_{len(local_paths)}.jpg"` (line 211). -/
def localImagePath (sid : String) (i : Nat) : String :=
  "downloads/temp_sessions/" ++ sid ++ "/image_" ++ toString i ++ ".jpg"

/-- `SupabaseStorage.create_session` (lines 110-144), with `now` for
`time.time()`. -/
def supa_create_session (uid : Int) (now : ℚ) (st : SupaState) : String × SupaState :=
  let t := pyInt now
  let sid := mkSessionId uid t
  if st.use_supabase then
    let row : SBSessionRow :=
      { session_id := sid, user_id := uid, status := "collecting", created_at := t, updated_at := t }
    (sid, { st with db := { st.db with multipdf_sessions := st.db.multipdf_sessions ++ [row] } })
  else
    let rec0 : MemSession := { user_id := uid, status := "collecting", images := [], created_at := t }
    (sid, { st with memory_store := astore sid rec0 st.memory_store })

/-- `SupabaseStorage.add_image` (lines 146-179).  Supabase mode: upload the
blob under `sessions/{sid}/{order}.jpg` and insert a `session_images` row —
with no check that the session exists.  Memory mode: append the local path to
the session's `images` list when the session exists, and return `True`
regardless. -/
def supa_add_image (sid : String) (image_path : String) (order : Int) (now : ℚ)
    (st : SupaState) : Bool × SupaState :=
  if st.use_supabase then
    let sp := mkStoragePath sid order
    (true, { st with db := { st.db with
        storage_objects := st.db.storage_objects ++ [sp],
        session_images := st.db.session_images ++
          [{ session_id := sid, image_path := sp, image_order := order, created_at := pyInt now }] } })
  else
    match alookup st.memory_store sid with
    | some s =>
      (true, { st with memory_store := astore sid { s with images := s.images ++ [image_path] } st.memory_store })
    | none => (true, st)

/-- The `session_images` rows of one session as the store returns them
(lines 187-191).  Modelled from the spec of the query
`.eq('session_id', sid).order('image_order')`: the matching rows, ascending
by `image_order` (stable). -/
def sessionImageRows (sid : String) (db : SupabaseDB) : List SBImageRow :=
  (db.session_images.filter (fun row => row.session_id == sid)).mergeSort
    (fun a b => decide (a.image_order ≤ b.image_order))

/-- `SupabaseStorage.get_session_images` (lines 181-228).  Supabase mode with
rows present: download each row's blob, in row order, to
`downloads/temp_sessions/{sid}/image_{i}.jpg` and return those local paths;
with no rows, fall back to the memory record.  Memory mode: the stored list. -/
def supa_get_session_images (sid : String) (st : SupaState) : List String :=
  if st.use_supabase then
    let rows := sessionImageRows sid st.db
    if rows = [] then
      match alookup st.memory_store sid with
      | some s => s.images
      | none => []
    else (List.range rows.length).map (localImagePath sid)
  else
    match alookup st.memory_store sid with
    | some s => s.images
    | none => []

/-- The storage objects `get_session_images` downloads, in download order:
the i-th local path it returns receives the bytes of the i-th of these
(lines 204-215). -/
def supa_downloaded_sources (sid : String) (st : SupaState) : List String :=
  (sessionImageRows sid st.db).map (fun row => row.image_path)

/-- `SupabaseStorage.update_session_status` (lines 246-266): in Supabase mode
set `status` and refresh both `updated_at` and `created_at` to now on the
matching rows; in every mode, also refresh the memory record if present. -/
def supa_update_session_status (sid : String) (status : String) (now : ℚ)
    (st : SupaState) : SupaState :=
  let t := pyInt now
  let db' := if st.use_supabase then
      { st.db with multipdf_sessions := st.db.multipdf_sessions.map (fun row =>
          if row.session_id = sid then { row with status := status, updated_at := t, created_at := t }
          else row) }
    else st.db
  let mem' := match alookup st.memory_store sid with
    | some s => astore sid { s with status := status, created_at := t } st.memory_store
    | none => st.memory_store
  { st with db := db', memory_store := mem' }

/-- Remove the listed object paths from the storage bucket (the per-image
`storage.from_('images').remove([path])` loop, lines 280-286). -/
def removeObjects (paths : List String) (objs : List String) : List String :=
  objs.filter (fun o => !(paths.contains o))

/-- `SupabaseStorage.delete_session` (lines 268-302): in Supabase mode remove
every stored blob of the session, delete its `multipdf_sessions` row —
cascading its `session_images` rows (line 291) — and in every mode pop the
memory record. -/
def supa_delete_session (sid : String) (st : SupaState) : SupaState :=
  let db' := if st.use_supabase then
      let paths := (st.db.session_images.filter (fun row => row.session_id == sid)).map
        (fun row => row.image_path)
      { multipdf_sessions := st.db.multipdf_sessions.filter (fun row => !(row.session_id == sid)),
        session_images := st.db.session_images.filter (fun row => !(row.session_id == sid)),
        storage_objects := removeObjects paths st.db.storage_objects }
    else st.db
  { st with db := db', memory_store := aremove sid st.memory_store }

/-- The memory sweep of `cleanup_old_sessions` (lines 352-362): drop every
memory record older than `max_age_seconds`, `status` ignored. -/
def memSweep (maxAge now : ℚ) (mem : List (String × MemSession)) :
    List (String × MemSession) :=
  mem.filter (fun p => !(decide (maxAge < now - (p.2.created_at : ℚ))))

/-- `SupabaseStorage.cleanup_old_sessions` (lines 304-362), with `now` for
`time.time()`.  Supabase mode: delete every `completed` row (the table
delete cascades their image rows), then fully delete every remaining session
older than `max_age_seconds`.  Every mode: sweep the memory store by age. -/
def supa_cleanup_old_sessions (maxAge now : ℚ) (st : SupaState) : SupaState :=
  let st2 := if st.use_supabase then
      let db1 : SupabaseDB :=
        { st.db with
          multipdf_sessions := st.db.multipdf_sessions.filter (fun row => !(row.status == "completed")),
          session_images := st.db.session_images.filter (fun row =>
            !((st.db.multipdf_sessions.filter (fun srow => srow.status == "completed")).map
                (fun srow => srow.session_id)).contains row.session_id) }
      let olds := ((db1.multipdf_sessions.filter
          (fun row => decide (maxAge < now - (row.created_at : ℚ)))).map (fun row => row.session_id))
      olds.foldl (fun acc sid => supa_delete_session sid acc) { st with db := db1 }
    else st
  { st2 with memory_store := memSweep maxAge now st2.memory_store }

/-- The statuses counted as an active session (lines 372 and 383). -/
def activeStatus (s : String) : Bool :=
  s == "collecting" || s == "awaiting_selection"

/-- `SupabaseStorage.get_user_session` (lines 364-385).  Supabase mode:
the matching active row of greatest `created_at` (the query orders by
`created_at` descending and takes one).  Memory mode: the first matching
record in insertion order. -/
def supa_get_user_session (uid : Int) (st : SupaState) : Option String :=
  if st.use_supabase then
    (((st.db.multipdf_sessions.filter (fun row => row.user_id == uid && activeStatus row.status)).mergeSort
        (fun a b => decide (b.created_at ≤ a.created_at))).head?).map (fun row => row.session_id)
  else
    ((st.memory_store.find? (fun p => p.2.user_id == uid && activeStatus p.2.status)).map Prod.fst)

/-! ### `Modules/session_adapter.py` -/

/-- The adapter's own fields: which constructor arguments were passed
(truthy) and the choice `self._use_redis` computed once in `__init__`
(line 27: `redis_storage and redis_storage.is_enabled`). -/
structure Adapter where
  has_redis : Bool
  has_supabase : Bool
  use_redis : Bool
deriving DecidableEq

/-- `SessionStorageAdapter.__init__` (lines 15-34). -/
def mkAdapter (redis : Option RedisStorage) (has_supabase : Bool) : Adapter :=
  { has_redis := redis.isSome,
    has_supabase := has_supabase,
    use_redis := match redis with
      | some r => r.enabled
      | none => false }

/-- The states of the two real backends the adapter can forward to. -/
structure SessionBackends where
  redis : RedisStorage
  supa : SupaState
deriving DecidableEq

/-- `SessionStorageAdapter.storage_type` (lines 36-44). -/
def adapter_storage_type (ad : Adapter) : String :=
  if ad.use_redis then "redis"
  else if ad.has_supabase then "supabase"
  else "memory"

/-- `SessionStorageAdapter.create_session` (lines 46-52).  The Supabase
branch drops the metadata argument (`create_session(user_id)`). -/
def adapter_create_session (ad : Adapter) (uid : Int) (meta : List (String × String))
    (now : ℚ) (bs : SessionBackends) : Option String × SessionBackends :=
  if ad.use_redis then
    let res := redis_create_session uid (pyInt now) meta bs.redis
    (res.1, { bs with redis := res.2 })
  else if ad.has_supabase then
    let res := supa_create_session uid now bs.supa
    (some res.1, { bs with supa := res.2 })
  else (none, bs)

/-- `SessionStorageAdapter.get_user_session` (lines 54-60). -/
def adapter_get_user_session (ad : Adapter) (uid : Int) (bs : SessionBackends) :
    Option String :=
  if ad.use_redis then redis_get_user_session uid bs.redis
  else if ad.has_supabase then supa_get_user_session uid bs.supa
  else none

/-- `SessionStorageAdapter.add_image` (lines 62-68). -/
def adapter_add_image (ad : Adapter) (sid image_path : String) (order : Int) (now : ℚ)
    (bs : SessionBackends) : Bool × SessionBackends :=
  if ad.use_redis then
    let res := redis_add_image sid image_path order (pyInt now) bs.redis
    (res.1, { bs with redis := res.2 })
  else if ad.has_supabase then
    let res := supa_add_image sid image_path order now bs.supa
    (res.1, { bs with supa := res.2 })
  else (false, bs)

/-- `SessionStorageAdapter.get_session_images` (lines 70-76). -/
def adapter_get_session_images (ad : Adapter) (sid : String) (bs : SessionBackends) :
    List String :=
  if ad.use_redis then redis_get_session_images sid bs.redis
  else if ad.has_supabase then supa_get_session_images sid bs.supa
  else []

/-- `SessionStorageAdapter.delete_session` (lines 78-84).  The Supabase
branch returns `SupabaseStorage.delete_session`'s result, which has no
return statement: the implicit `None` is falsy, modelled `false`. -/
def adapter_delete_session (ad : Adapter) (sid : String) (bs : SessionBackends) :
    Bool × SessionBackends :=
  if ad.use_redis then
    let res := redis_delete_session sid bs.redis
    (res.1, { bs with redis := res.2 })
  else if ad.has_supabase then
    (false, { bs with supa := supa_delete_session sid bs.supa })
  else (false, bs)

/-- `SessionStorageAdapter.update_metadata` (lines 86-91): forwarded only to
Redis; with any other choice it returns `False` touching no backend. -/
def adapter_update_metadata (ad : Adapter) (sid : String) (m : List (String × String))
    (bs : SessionBackends) : Bool × SessionBackends :=
  if ad.use_redis then
    let res := redis_update_metadata sid m bs.redis
    (res.1, { bs with redis := res.2 })
  else (false, bs)

/-! ## Theorems

### Association-list lemmas -/

theorem alookup_astore_self {α β : Type} [DecidableEq α] (k : α) (v : β) (l : List (α × β)) :
    alookup (astore k v l) k = some v := by
  induction l with
  | nil => simp [astore, alookup]
  | cons p rest ih =>
    by_cases h : p.1 = k
    · simp [astore, h, alookup]
    · simp [astore, h, alookup, ih]

theorem alookup_astore_ne {α β : Type} [DecidableEq α] {k k' : α} (v : β) (l : List (α × β))
    (h : k' ≠ k) : alookup (astore k v l) k' = alookup l k' := by
  induction l with
  | nil => simp [astore, alookup, Ne.symm h]
  | cons p rest ih =>
    by_cases hp : p.1 = k
    · have hp' : p.1 ≠ k' := by rw [hp]; exact Ne.symm h
      simp [astore, hp, alookup, Ne.symm h, hp']
    · by_cases hp' : p.1 = k'
      · simp [astore, hp, alookup, hp', h]
      · simp [astore, hp, alookup, hp', ih]

theorem alookup_aremove_self {α β : Type} [DecidableEq α] (k : α) (l : List (α × β)) :
    alookup (aremove k l) k = none := by
  induction l with
  | nil => simp [aremove, alookup]
  | cons p rest ih =>
    by_cases h : p.1 = k
    · simp [aremove, h, ih]
    · simp [aremove, h, alookup, ih]

theorem alookup_aremove_ne {α β : Type} [DecidableEq α] {k k' : α} (l : List (α × β))
    (h : k' ≠ k) : alookup (aremove k l) k' = alookup l k' := by
  induction l with
  | nil => simp [aremove]
  | cons p rest ih =>
    by_cases hp : p.1 = k
    · simp [aremove, hp, ih, alookup, Ne.symm h]
    · by_cases hp' : p.1 = k'
      · simp [aremove, hp, alookup, hp', h]
      · simp [aremove, hp, alookup, hp', ih]

theorem alookup_eq_none {α β : Type} [DecidableEq α] (l : List (α × β)) (k : α) :
    alookup l k = none ↔ k ∉ l.map Prod.fst := by
  induction l with
  | nil => simp [alookup]
  | cons p rest ih =>
    by_cases h : p.1 = k
    · simp [alookup, h]
    · simp [alookup, h, ih, Ne.symm h]

theorem aremove_eq_self {α β : Type} [DecidableEq α] {l : List (α × β)} {k : α}
    (h : alookup l k = none) : aremove k l = l := by
  induction l with
  | nil => simp [aremove]
  | cons p rest ih =>
    by_cases hp : p.1 = k
    · simp [alookup, hp] at h
    · simp [alookup, hp] at h
      simp [aremove, hp, ih h]

theorem aremove_sublist {α β : Type} [DecidableEq α] (k : α) (l : List (α × β)) :
    (aremove k l).Sublist l := by
  induction l with
  | nil => simp [aremove]
  | cons p rest ih =>
    by_cases hp : p.1 = k
    · simp only [aremove, if_pos hp]
      exact ih.trans (List.sublist_cons_self p rest)
    · simp only [aremove, if_neg hp]
      exact ih.cons₂ p

theorem mem_keys_astore {α β : Type} [DecidableEq α] (k a : α) (v : β) (l : List (α × β)) :
    a ∈ (astore k v l).map Prod.fst ↔ a = k ∨ a ∈ l.map Prod.fst := by
  induction l with
  | nil => simp [astore]
  | cons p rest ih =>
    by_cases hp : p.1 = k
    · subst hp
      simp [astore]
    · simp only [astore, if_neg hp, List.map_cons, List.mem_cons, ih]
      tauto

theorem nodup_keys_astore {α β : Type} [DecidableEq α] (k : α) (v : β) {l : List (α × β)}
    (h : (l.map Prod.fst).Nodup) : ((astore k v l).map Prod.fst).Nodup := by
  induction l with
  | nil => simp [astore]
  | cons p rest ih =>
    simp only [List.map_cons, List.nodup_cons] at h
    by_cases hp : p.1 = k
    · subst hp
      have hst : astore p.1 v (p :: rest) = (p.1, v) :: rest := by simp [astore]
      rw [hst]
      simp only [List.map_cons, List.nodup_cons]
      exact h
    · simp only [astore, if_neg hp, List.map_cons, List.nodup_cons]
      refine ⟨fun hmem => ?_, ih h.2⟩
      rcases (mem_keys_astore k p.1 v rest).mp hmem with h1 | h1
      · exact hp h1
      · exact h.1 h1

/-! ### `keepRecent` and `evictOld` -/

theorem keepRecent_eq_filter (c : ℚ) (l : List ℚ) :
    keepRecent c l = l.filter (fun a => decide (c ≤ a)) := by
  induction l with
  | nil => simp [keepRecent]
  | cons a as ih =>
    by_cases h : c ≤ a
    · simp [keepRecent, h, ih]
    · simp [keepRecent, h, ih]

theorem keepRecent_eq_self {c : ℚ} {l : List ℚ} (h : ∀ a ∈ l, c ≤ a) :
    keepRecent c l = l := by
  rw [keepRecent_eq_filter]
  exact List.filter_eq_self.mpr (fun a ha => by simpa using h a ha)

theorem evictOld_eq_keepRecent {l : List ℚ} (c : ℚ) (h : l.Sorted (· ≤ ·)) :
    evictOld c l = keepRecent c l := by
  induction l with
  | nil => simp [evictOld, keepRecent]
  | cons a as ih =>
    rw [List.sorted_cons] at h
    by_cases hc : a < c
    · simp [evictOld, hc, keepRecent, not_le.mpr hc, ih h.2]
    · have hca : c ≤ a := not_lt.mp hc
      simp only [evictOld, if_neg hc, keepRecent, if_pos hca]
      rw [keepRecent_eq_self (fun b hb => hca.trans (h.1 b hb))]

/-! ### `removeInactive` -/

theorem removeInactive_sublist (th : ℚ) (l : List (UserId × List ℚ)) :
    (removeInactive th l).Sublist l := by
  induction l with
  | nil => simp [removeInactive]
  | cons p rest ih =>
    match hg : p.2.getLast? with
    | none =>
      simp only [removeInactive, hg]
      exact ih.cons₂ p
    | some t =>
      by_cases ht : t < th
      · simp only [removeInactive, hg, if_pos ht]
        exact ih.trans (List.sublist_cons_self p rest)
      · simp only [removeInactive, hg, if_neg ht]
        exact ih.cons₂ p

theorem lookupTimes_astore_self (u : UserId) (ts : List ℚ) (l : List (UserId × List ℚ)) :
    lookupTimes (astore u ts l) u = ts := by
  simp [lookupTimes, alookup_astore_self]

theorem lookupTimes_astore_ne {u v : UserId} (ts : List ℚ) (l : List (UserId × List ℚ))
    (h : v ≠ u) : lookupTimes (astore u ts l) v = lookupTimes l v := by
  simp [lookupTimes, alookup_astore_ne ts l h]

theorem lookup_removeInactive_cases (th : ℚ) {l : List (UserId × List ℚ)}
    (hnd : (l.map Prod.fst).Nodup) (v : UserId) :
    lookupTimes (removeInactive th l) v = lookupTimes l v ∨
      (lookupTimes (removeInactive th l) v = [] ∧
        ∃ g, (lookupTimes l v).getLast? = some g ∧ g < th) := by
  induction l with
  | nil => simp [removeInactive]
  | cons p rest ih =>
    simp only [List.map_cons, List.nodup_cons] at hnd
    by_cases hv : p.1 = v
    · subst hv
      have habs : alookup (removeInactive th rest) p.1 = none := by
        rw [alookup_eq_none]
        exact fun hmem => hnd.1 (((removeInactive_sublist th rest).map Prod.fst).mem hmem)
      match hg : p.2.getLast? with
      | none =>
        left
        simp [removeInactive, hg, lookupTimes, alookup]
      | some t =>
        by_cases ht : t < th
        · right
          refine ⟨?_, t, ?_, ht⟩
          · simp only [removeInactive, hg, if_pos ht]
            simp [lookupTimes, habs]
          · simpa [lookupTimes, alookup] using hg
        · left
          simp [removeInactive, hg, if_neg ht, lookupTimes, alookup]
    · have hrest := ih hnd.2
      match hg : p.2.getLast? with
      | none =>
        simpa [removeInactive, hg, lookupTimes, alookup, hv] using hrest
      | some t =>
        by_cases ht : t < th
        · simpa [removeInactive, hg, if_pos ht, lookupTimes, alookup, hv] using hrest
        · simpa [removeInactive, hg, if_neg ht, lookupTimes, alookup, hv] using hrest

/-! ### Further `keepRecent` lemmas -/

theorem keepRecent_sublist_self (c : ℚ) (l : List ℚ) : (keepRecent c l).Sublist l := by
  rw [keepRecent_eq_filter]
  exact List.filter_sublist l

theorem keepRecent_mono {l₁ l₂ : List ℚ} (c : ℚ) (h : l₁.Sublist l₂) :
    (keepRecent c l₁).Sublist (keepRecent c l₂) := by
  rw [keepRecent_eq_filter, keepRecent_eq_filter]
  exact h.filter _

theorem keepRecent_keepRecent {c c' : ℚ} (h : c ≤ c') (l : List ℚ) :
    keepRecent c' (keepRecent c l) = keepRecent c' l := by
  rw [keepRecent_eq_filter, keepRecent_eq_filter, keepRecent_eq_filter, List.filter_filter]
  refine List.filter_congr (fun a _ => ?_)
  by_cases h' : c' ≤ a
  · simp [h', le_trans h h']
  · simp [h']

theorem keepRecent_anti {c c' : ℚ} (h : c ≤ c') (l : List ℚ) :
    (keepRecent c' l).Sublist (keepRecent c l) := by
  rw [← keepRecent_keepRecent h l]
  exact keepRecent_sublist_self c' (keepRecent c l)

theorem mem_keepRecent {c a : ℚ} {l : List ℚ} :
    a ∈ keepRecent c l ↔ a ∈ l ∧ c ≤ a := by
  rw [keepRecent_eq_filter]
  simp [List.mem_filter]

theorem keepRecent_append (c : ℚ) (l₁ l₂ : List ℚ) :
    keepRecent c (l₁ ++ l₂) = keepRecent c l₁ ++ keepRecent c l₂ := by
  rw [keepRecent_eq_filter, keepRecent_eq_filter, keepRecent_eq_filter]
  exact List.filter_append l₁ l₂

theorem sorted_le_getLast {l : List ℚ} (hs : l.Sorted (· ≤ ·)) {a : ℚ} (ha : a ∈ l) {g : ℚ}
    (hg : l.getLast? = some g) : a ≤ g := by
  induction l with
  | nil => cases ha
  | cons b rest ih =>
    rw [List.sorted_cons] at hs
    cases rest with
    | nil =>
      simp at hg
      rcases List.mem_singleton.mp ha with rfl
      exact le_of_eq hg
    | cons c r =>
      rw [List.getLast?_cons_cons] at hg
      have hgmem : g ∈ (c :: r) := by
        obtain ⟨hne, heq⟩ := List.mem_getLast?_eq_getLast (Option.mem_def.mpr hg)
        rw [heq]
        exact List.getLast_mem hne
      rcases List.mem_cons.mp ha with rfl | hmem
      · exact hs.1 g hgmem
      · exact ih hs.2 hmem hg

/-! ### The refinement invariant is preserved -/

theorem cleanup_preserves_inv (cfg : RLConfig) (now : ℚ) {A : History} {st : RLState}
    (h600 : cfg.window_seconds ≤ 600) (hInv : RLInv cfg now A st) :
    RLInv cfg now A (cleanup_old_entries now st) := by
  obtain ⟨hnd, hA⟩ := hInv
  unfold cleanup_old_entries
  by_cases hguard : now - st.last_cleanup < 300
  · rw [if_pos hguard]
    exact ⟨hnd, hA⟩
  · rw [if_neg hguard]
    refine ⟨?_, fun v => ?_⟩
    · exact List.Nodup.sublist ((removeInactive_sublist _ _).map Prod.fst) hnd
    · refine ⟨(hA v).1, (hA v).2.1, ?_, ?_⟩
      · rcases lookup_removeInactive_cases (now - 600) hnd v with hsame | ⟨hnil, _⟩
        · rw [hsame]
          exact (hA v).2.2.1
        · rw [hnil]
          exact List.nil_sublist _
      · rcases lookup_removeInactive_cases (now - 600) hnd v with hsame | ⟨hnil, g, hg, hglt⟩
        · rw [hsame]
          exact (hA v).2.2.2
        · rw [hnil]
          have hempty : keepRecent (now - cfg.window_seconds) (A v) = [] := by
            cases hkr : keepRecent (now - cfg.window_seconds) (A v) with
            | nil => rfl
            | cons a as =>
              exfalso
              have hamem : a ∈ keepRecent (now - cfg.window_seconds) (A v) := by
                rw [hkr]; exact List.mem_cons_self a as
              obtain ⟨haA, hacut⟩ := mem_keepRecent.mp hamem
              have halook : a ∈ lookupTimes st.user_requests v := (hA v).2.2.2.mem hamem
              have hlsorted : (lookupTimes st.user_requests v).Sorted (· ≤ ·) :=
                List.Pairwise.sublist ((hA v).2.2.1) ((hA v).1)
              have hag : a ≤ g := sorted_le_getLast hlsorted halook hg
              have : now - cfg.window_seconds ≤ a := hacut
              linarith
          rw [hempty]

theorem check_rate_limit_refines (cfg : RLConfig) (now : ℚ) (u : UserId) {T : ℚ} {A : History}
    {st : RLState} (hInv : RLInv cfg T A st) (hT : T ≤ now)
    (hW : 0 ≤ cfg.window_seconds) (h600 : cfg.window_seconds ≤ 600) :
    (check_rate_limit cfg now u st).1 = (specStep cfg now u A).1 ∧
      RLInv cfg now (specStep cfg now u A).2 (check_rate_limit cfg now u st).2 := by
  obtain ⟨hnd, hA⟩ := hInv
  have hts_sorted : (lookupTimes st.user_requests u).Sorted (· ≤ ·) :=
    List.Pairwise.sublist ((hA u).2.2.1) ((hA u).1)
  have hev : evictOld (now - cfg.window_seconds) (lookupTimes st.user_requests u)
      = keepRecent (now - cfg.window_seconds) (lookupTimes st.user_requests u) :=
    evictOld_eq_keepRecent _ hts_sorted
  have hwcut : T - cfg.window_seconds ≤ now - cfg.window_seconds := by linarith
  have hts2_eq : keepRecent (now - cfg.window_seconds) (lookupTimes st.user_requests u)
      = keepRecent (now - cfg.window_seconds) (A u) := by
    refine List.Sublist.antisymm (keepRecent_mono _ ((hA u).2.2.1)) ?_
    have h1 := keepRecent_mono (now - cfg.window_seconds) ((hA u).2.2.2)
    rwa [keepRecent_keepRecent hwcut] at h1
  by_cases hdec :
      (keepRecent (now - cfg.window_seconds) (A u)).length < cfg.max_requests
  · -- admitted
    have hcheck : check_rate_limit cfg now u st = ((true, 0),
        cleanup_old_entries now
          { st with user_requests :=
              astore u (keepRecent (now - cfg.window_seconds) (A u) ++ [now]) st.user_requests }) := by
      simp only [check_rate_limit, hev, hts2_eq]
      rw [if_pos hdec]
    have hspec : specStep cfg now u A = ((true, 0), Function.update A u (A u ++ [now])) := by
      simp only [specStep]
      rw [if_pos hdec]
    refine ⟨by rw [hcheck, hspec], ?_⟩
    rw [hcheck, hspec]
    dsimp only
    refine cleanup_preserves_inv cfg now h600 ?_
    refine ⟨nodup_keys_astore _ _ hnd, fun v => ?_⟩
    dsimp only
    by_cases hv : v = u
    · subst hv
      have hup : Function.update A v (A v ++ [now]) v = A v ++ [now] := Function.update_same v _ A
      have hlook : lookupTimes (astore v (keepRecent (now - cfg.window_seconds) (A v) ++ [now])
          st.user_requests) v = keepRecent (now - cfg.window_seconds) (A v) ++ [now] :=
        lookupTimes_astore_self v _ st.user_requests
      refine ⟨?_, ?_, ?_, ?_⟩
      · rw [hup]
        rw [List.Sorted, List.pairwise_append]
        exact ⟨(hA v).1, List.pairwise_singleton _ _,
          fun a ha b hb => by
            rcases List.mem_singleton.mp hb with rfl
            exact le_trans ((hA v).2.1 a ha) hT⟩
      · rw [hup]
        intro a ha
        rcases List.mem_append.mp ha with h1 | h1
        · exact le_trans ((hA v).2.1 a h1) hT
        · rcases List.mem_singleton.mp h1 with rfl
          exact le_rfl
      · rw [hup, hlook]
        exact List.Sublist.append (keepRecent_sublist_self _ _) (List.Sublist.refl _)
      · rw [hup, hlook, keepRecent_append]
        have hnow : keepRecent (now - cfg.window_seconds) [now] = [now] := by
          have hc : now - cfg.window_seconds ≤ now := by linarith
          simp [keepRecent, hc]
        rw [hnow]
    · have hup : Function.update A u (A u ++ [now]) v = A v :=
        Function.update_noteq hv _ A
      have hlook : lookupTimes (astore u (keepRecent (now - cfg.window_seconds) (A u) ++ [now])
          st.user_requests) v = lookupTimes st.user_requests v :=
        lookupTimes_astore_ne _ st.user_requests hv
      refine ⟨?_, ?_, ?_, ?_⟩
      · rw [hup]; exact (hA v).1
      · rw [hup]
        exact fun a ha => le_trans ((hA v).2.1 a ha) hT
      · rw [hup, hlook]; exact (hA v).2.2.1
      · rw [hup, hlook]
        exact ((keepRecent_anti hwcut (A v)).trans ((hA v).2.2.2))
  · -- rejected
    have hcheck : check_rate_limit cfg now u st =
        ((false, pyInt ((keepRecent (now - cfg.window_seconds) (A u)).headD 0
            + cfg.window_seconds - now) + 1),
          { st with user_requests :=
              astore u (keepRecent (now - cfg.window_seconds) (A u)) st.user_requests }) := by
      simp only [check_rate_limit, hev, hts2_eq]
      rw [if_neg hdec]
    have hspec : specStep cfg now u A =
        ((false, pyInt ((keepRecent (now - cfg.window_seconds) (A u)).headD 0
            + cfg.window_seconds - now) + 1), A) := by
      simp only [specStep]
      rw [if_neg hdec]
    refine ⟨by rw [hcheck, hspec], ?_⟩
    rw [hcheck, hspec]
    dsimp only
    refine ⟨nodup_keys_astore _ _ hnd, fun v => ?_⟩
    dsimp only
    by_cases hv : v = u
    · subst hv
      have hlook : lookupTimes (astore v (keepRecent (now - cfg.window_seconds) (A v))
          st.user_requests) v = keepRecent (now - cfg.window_seconds) (A v) :=
        lookupTimes_astore_self v _ st.user_requests
      refine ⟨(hA v).1, fun a ha => le_trans ((hA v).2.1 a ha) hT, ?_, ?_⟩
      · rw [hlook]
        exact keepRecent_sublist_self _ _
      · rw [hlook]
    · have hlook : lookupTimes (astore u (keepRecent (now - cfg.window_seconds) (A u))
          st.user_requests) v = lookupTimes st.user_requests v :=
        lookupTimes_astore_ne _ st.user_requests hv
      refine ⟨(hA v).1, fun a ha => le_trans ((hA v).2.1 a ha) hT, ?_, ?_⟩
      · rw [hlook]; exact (hA v).2.2.1
      · rw [hlook]
        exact ((keepRecent_anti hwcut (A v)).trans ((hA v).2.2.2))

/-! ### Trace-level refinement -/

theorem init_inv (cfg : RLConfig) (t0 : ℚ) :
    RLInv cfg t0 (fun _ => []) (initRateLimiter t0) := by
  refine ⟨by simp [initRateLimiter], fun u => ?_⟩
  simp [initRateLimiter, lookupTimes, alookup, keepRecent, List.Sorted]

theorem run_refines (cfg : RLConfig) (hW : 0 ≤ cfg.window_seconds)
    (h600 : cfg.window_seconds ≤ 600) :
    ∀ (cs : List (ℚ × UserId)) (T : ℚ) (A : History) (st : RLState),
      RLInv cfg T A st → List.Chain' (· ≤ ·) (T :: cs.map Prod.fst) →
      runLog cfg cs st = specLog cfg cs A ∧
        RLInv cfg ((cs.map Prod.fst).getLastD T) (specRun cfg cs A) (runCalls cfg cs st)
  | [], T, A, st, hInv, _ => by
    refine ⟨rfl, ?_⟩
    simpa [runCalls, specRun] using hInv
  | c :: rest, T, A, st, hInv, hchain => by
    have hTc : T ≤ c.1 := (List.chain'_cons.mp (by simpa using hchain)).1
    have hchain' : List.Chain' (· ≤ ·) (c.1 :: rest.map Prod.fst) :=
      (List.chain'_cons.mp (by simpa using hchain)).2
    obtain ⟨hdec, hInv'⟩ := check_rate_limit_refines cfg c.1 c.2 hInv hTc hW h600
    obtain ⟨hlog, hfin⟩ := run_refines cfg hW h600 rest c.1 _ _ hInv' hchain'
    refine ⟨?_, ?_⟩
    · simp only [runLog, specLog, hdec, hlog]
    · have hgl : ((c :: rest).map Prod.fst).getLastD T = (rest.map Prod.fst).getLastD c.1 := by
        rw [List.map_cons, List.getLastD_cons]
      rw [hgl]
      exact hfin

/-! ### Reference-semantics lemmas -/

theorem specStep_frame (cfg : RLConfig) (now : ℚ) (u v : UserId) (A : History)
    (hv : v ≠ u) : (specStep cfg now u A).2 v = A v := by
  unfold specStep
  by_cases h : (keepRecent (now - cfg.window_seconds) (A u)).length < cfg.max_requests
  · rw [if_pos h]
    exact Function.update_noteq hv _ A
  · rw [if_neg h]

theorem specRun_frame (cfg : RLConfig) (u : UserId) :
    ∀ (cs : List (ℚ × UserId)) (A : History), (∀ c ∈ cs, c.2 ≠ u) →
      specRun cfg cs A u = A u
  | [], A, _ => rfl
  | c :: rest, A, h => by
    have h1 : c.2 ≠ u := h c (List.mem_cons_self c rest)
    rw [specRun, specRun_frame cfg u rest _ (fun d hd => h d (List.mem_cons_of_mem c hd))]
    exact specStep_frame cfg c.1 c.2 u A (Ne.symm h1)

theorem specLog_append (cfg : RLConfig) :
    ∀ (cs₁ cs₂ : List (ℚ × UserId)) (A : History),
      specLog cfg (cs₁ ++ cs₂) A = specLog cfg cs₁ A ++ specLog cfg cs₂ (specRun cfg cs₁ A)
  | [], cs₂, A => rfl
  | c :: rest, cs₂, A => by
    simp only [List.cons_append, specLog, specRun, List.cons_inj_right]
    exact specLog_append cfg rest cs₂ _

theorem specRun_append (cfg : RLConfig) :
    ∀ (cs₁ cs₂ : List (ℚ × UserId)) (A : History),
      specRun cfg (cs₁ ++ cs₂) A = specRun cfg cs₂ (specRun cfg cs₁ A)
  | [], cs₂, A => rfl
  | c :: rest, cs₂, A => by
    simp only [List.cons_append, specRun]
    exact specRun_append cfg rest cs₂ _

theorem specRun_accumulates (cfg : RLConfig) (u : UserId) :
    ∀ (cs : List (ℚ × UserId)) (A : History),
      specRun cfg cs A u = A u ++ specAdmitted cfg cs A u
  | [], A => by simp [specRun, specAdmitted, specLog]
  | c :: rest, A => by
    have ih := specRun_accumulates cfg u rest (specStep cfg c.1 c.2 A).2
    have hlog : specAdmitted cfg (c :: rest) A u =
        (if c.2 = u ∧ (specStep cfg c.1 c.2 A).1.1 = true then [c.1] else []) ++
          specAdmitted cfg rest (specStep cfg c.1 c.2 A).2 u := by
      unfold specAdmitted
      simp only [specLog, List.filterMap_cons]
      by_cases hc : c.2 = u ∧ (specStep cfg c.1 c.2 A).1.1 = true
      · obtain ⟨hcu, hadm⟩ := hc
        subst hcu
        simp [hadm]
      · simp [hc]
    rw [specRun, ih, hlog]
    by_cases hc : c.2 = u ∧ (specStep cfg c.1 c.2 A).1.1 = true
    · obtain ⟨hcu, hadm⟩ := hc
      have hstep2 : (specStep cfg c.1 c.2 A).2 u = A u ++ [c.1] := by
        subst hcu
        unfold specStep at hadm ⊢
        by_cases hdec :
            (keepRecent (c.1 - cfg.window_seconds) (A c.2)).length < cfg.max_requests
        · rw [if_pos hdec]
          exact Function.update_same _ _ _
        · rw [if_neg hdec] at hadm
          simp at hadm
      rw [hstep2]
      have hadm' : (specStep cfg c.1 u A).1.1 = true := by rw [← hcu]; exact hadm
      simp [hcu, hadm', List.append_assoc]
    · have hstep2 : (specStep cfg c.1 c.2 A).2 u = A u := by
        by_cases hcu : c.2 = u
        · subst hcu
          unfold specStep
          by_cases hdec :
              (keepRecent (c.1 - cfg.window_seconds) (A c.2)).length < cfg.max_requests
          · exact absurd ⟨rfl, by unfold specStep; rw [if_pos hdec]⟩ hc
          · rw [if_neg hdec]
        · exact specStep_frame cfg c.1 c.2 u A (Ne.symm hcu)
      rw [hstep2]
      simp [hc]

theorem pyInt_of_nonneg {x : ℚ} (h : 0 ≤ x) : pyInt x = ⌊x⌋ := if_pos h

theorem pyInt_nonneg {x : ℚ} (h : 0 ≤ x) : 0 ≤ pyInt x := by
  rw [pyInt_of_nonneg h]
  exact Int.floor_nonneg.mpr h

theorem lt_pyInt_add_one {x : ℚ} (h : 0 ≤ x) : x < (pyInt x : ℚ) + 1 := by
  rw [pyInt_of_nonneg h]
  exact_mod_cast Int.lt_floor_add_one x

theorem specRun_window_le (cfg : RLConfig) :
    ∀ (cs : List (ℚ × UserId)) (A : History),
      (∀ u a, ((A u).filter
          (fun t => decide (a ≤ t) && decide (t ≤ a + cfg.window_seconds))).length
            ≤ cfg.max_requests) →
      ∀ u a, ((specRun cfg cs A u).filter
          (fun t => decide (a ≤ t) && decide (t ≤ a + cfg.window_seconds))).length
            ≤ cfg.max_requests
  | [], _, h => h
  | c :: rest, A, h => by
    rw [specRun]
    refine specRun_window_le cfg rest _ ?_
    intro u a
    unfold specStep
    by_cases hdec : (keepRecent (c.1 - cfg.window_seconds) (A c.2)).length < cfg.max_requests
    · rw [if_pos hdec]
      dsimp only
      by_cases hcu : u = c.2
      · subst hcu
        rw [Function.update_same, List.filter_append]
        by_cases hwin : a ≤ c.1 ∧ c.1 ≤ a + cfg.window_seconds
        · have hone : ([c.1].filter
              (fun t => decide (a ≤ t) && decide (t ≤ a + cfg.window_seconds))) = [c.1] := by
            simp [List.filter_cons, hwin.1, hwin.2]
          rw [hone]
          have hmono : ((A c.2).filter
              (fun t => decide (a ≤ t) && decide (t ≤ a + cfg.window_seconds))).Sublist
                ((A c.2).filter (fun t => decide (c.1 - cfg.window_seconds ≤ t))) := by
            refine List.monotone_filter_right _ (fun t ht => ?_)
            simp only [Bool.and_eq_true, decide_eq_true_eq] at ht
            simp only [decide_eq_true_eq]
            linarith [hwin.2, ht.1]
          have hlen : ((A c.2).filter
              (fun t => decide (a ≤ t) && decide (t ≤ a + cfg.window_seconds))).length
                < cfg.max_requests := by
            have h1 := hmono.length_le
            rw [← keepRecent_eq_filter] at h1
            exact lt_of_le_of_lt h1 hdec
          rw [List.length_append]
          simpa using hlen
        · have hzero : ([c.1].filter
              (fun t => decide (a ≤ t) && decide (t ≤ a + cfg.window_seconds))) = [] := by
            rcases not_and_or.mp hwin with h1 | h1 <;> simp [List.filter_cons, h1]
          rw [hzero, List.append_nil]
          exact h c.2 a
      · rw [Function.update_noteq hcu]
        exact h u a
    · rw [if_neg hdec]
      exact h u a

theorem specLog_all_admitted (cfg : RLConfig) (u : UserId) :
    ∀ (cs : List (ℚ × UserId)) (A : History),
      (A u).length + (callsOf u cs).length ≤ cfg.max_requests →
      ∀ e ∈ specLog cfg cs A, e.1.2 = u → e.2 = (true, 0)
  | [], _, _, e, he, _ => absurd he (List.not_mem_nil e)
  | c :: rest, A, hlen, e, he, heu => by
    rw [specLog] at he
    have hcalls : (callsOf u (c :: rest)).length =
        (if c.2 = u then 1 else 0) + (callsOf u rest).length := by
      by_cases hcu : c.2 = u
      · simp [callsOf, List.filter_cons, hcu]
        omega
      · simp [callsOf, List.filter_cons, hcu]
    rcases List.mem_cons.mp he with rfl | htail
    · -- the head entry: its user is u, so the decision is about A u
      have hcu : c.2 = u := heu
      have hwin : (keepRecent (c.1 - cfg.window_seconds) (A c.2)).length
          < cfg.max_requests := by
        have h1 : (keepRecent (c.1 - cfg.window_seconds) (A c.2)).length ≤ (A c.2).length :=
          (keepRecent_sublist_self _ _).length_le
        rw [hcalls, if_pos hcu] at hlen
        rw [hcu] at h1
        rw [hcu]
        omega
      show (specStep cfg c.1 c.2 A).1 = (true, 0)
      unfold specStep
      rw [if_pos hwin]
    · have hstep : ((specStep cfg c.1 c.2 A).2 u).length ≤
          (A u).length + (if c.2 = u then 1 else 0) := by
        unfold specStep
        by_cases hdec :
            (keepRecent (c.1 - cfg.window_seconds) (A c.2)).length < cfg.max_requests
        · rw [if_pos hdec]
          dsimp only
          by_cases hcu : u = c.2
          · subst hcu
            rw [Function.update_same]
            simp
          · rw [Function.update_noteq hcu]
            simp
        · rw [if_neg hdec]
          simp
      refine specLog_all_admitted cfg u rest (specStep cfg c.1 c.2 A).2 ?_ e htail heu
      rw [hcalls] at hlen
      omega

theorem exists_last_call (u : UserId) :
    ∀ cs : List (ℚ × UserId), callsOf u cs ≠ [] →
      ∃ cs₁ c cs₂, cs = cs₁ ++ c :: cs₂ ∧ c.2 = u ∧ callsOf u cs₂ = [] ∧
        callsOf u cs = callsOf u cs₁ ++ [c]
  | [], h => absurd rfl h
  | d :: rest, h => by
    by_cases hrest : callsOf u rest = []
    · by_cases hd : d.2 = u
      · refine ⟨[], d, rest, rfl, hd, hrest, ?_⟩
        have h1 : callsOf u (d :: rest) = d :: callsOf u rest := by
          simp [callsOf, List.filter_cons, hd]
        rw [h1, hrest]
        rfl
      · exfalso
        apply h
        have h1 : callsOf u (d :: rest) = callsOf u rest := by
          simp [callsOf, List.filter_cons, hd]
        rw [h1, hrest]
    · obtain ⟨cs₁, c, cs₂, heq, hcu, hnil, hsplit⟩ := exists_last_call u rest hrest
      refine ⟨d :: cs₁, c, cs₂, by rw [heq]; rfl, hcu, hnil, ?_⟩
      by_cases hd : d.2 = u
      · have h1 : callsOf u (d :: rest) = d :: callsOf u rest := by
          simp [callsOf, List.filter_cons, hd]
        have h2 : callsOf u (d :: cs₁) = d :: callsOf u cs₁ := by
          simp [callsOf, List.filter_cons, hd]
        rw [h1, h2, hsplit]
        rfl
      · have h1 : callsOf u (d :: rest) = callsOf u rest := by
          simp [callsOf, List.filter_cons, hd]
        have h2 : callsOf u (d :: cs₁) = callsOf u cs₁ := by
          simp [callsOf, List.filter_cons, hd]
        rw [h1, h2, hsplit]

theorem specLog_no_user (cfg : RLConfig) (u : UserId) :
    ∀ (cs : List (ℚ × UserId)) (A : History), callsOf u cs = [] →
      (specLog cfg cs A).filter (fun e => e.1.2 == u) = []
  | [], _, _ => rfl
  | c :: rest, A, h => by
    have hsplit : ¬ c.2 = u ∧ callsOf u rest = [] := by
      by_cases hd : c.2 = u
      · exfalso
        have : callsOf u (c :: rest) = c :: callsOf u rest := by
          simp [callsOf, List.filter_cons, hd]
        rw [h] at this
        exact List.cons_ne_nil c (callsOf u rest) this.symm
      · refine ⟨hd, ?_⟩
        have : callsOf u (c :: rest) = callsOf u rest := by
          simp [callsOf, List.filter_cons, hd]
        rw [← this, h]
    rw [specLog, List.filter_cons]
    simp [hsplit.1, specLog_no_user cfg u rest _ hsplit.2]

theorem specAdmitted_eq_times (cfg : RLConfig) (u : UserId) :
    ∀ (cs : List (ℚ × UserId)) (A : History),
      (∀ e ∈ specLog cfg cs A, e.1.2 = u → e.2 = (true, 0)) →
      specAdmitted cfg cs A u = (callsOf u cs).map Prod.fst
  | [], _, _ => rfl
  | c :: rest, A, hall => by
    have hrest := specAdmitted_eq_times cfg u rest (specStep cfg c.1 c.2 A).2
      (fun e he heu => hall e (by rw [specLog]; exact List.mem_cons_of_mem _ he) heu)
    unfold specAdmitted
    simp only [specLog, List.filterMap_cons]
    by_cases hcu : c.2 = u
    · subst hcu
      have hhead : (specStep cfg c.1 c.2 A).1 = (true, 0) :=
        hall (c, (specStep cfg c.1 c.2 A).1) (by rw [specLog]; exact List.mem_cons_self _ _) rfl
      unfold specAdmitted at hrest
      simp [hhead, hrest, callsOf, List.filter_cons]
    · unfold specAdmitted at hrest
      simp [hcu, hrest, callsOf, List.filter_cons]

/-! ### `removeInactive` membership characterization -/

theorem not_mem_keys_removeInactive {th : ℚ} {l : List (UserId × List ℚ)}
    (hnd : (l.map Prod.fst).Nodup) {p : UserId × List ℚ} (hp : p ∈ l) {g : ℚ}
    (hg : p.2.getLast? = some g) (hlt : g < th) :
    p.1 ∉ (removeInactive th l).map Prod.fst := by
  induction l with
  | nil => cases hp
  | cons q rest ih =>
    simp only [List.map_cons, List.nodup_cons] at hnd
    rcases List.mem_cons.mp hp with rfl | hmem
    · rw [removeInactive, hg]
      dsimp only
      rw [if_pos hlt]
      intro hk
      exact hnd.1 (((removeInactive_sublist th rest).map Prod.fst).mem hk)
    · have hne : q.1 ≠ p.1 := fun he =>
        hnd.1 (he ▸ (List.mem_map_of_mem Prod.fst hmem))
      have ihr := ih hnd.2 hmem
      cases hq : q.2.getLast? with
      | none =>
        rw [removeInactive, hq]
        dsimp only
        simp only [List.map_cons, List.mem_cons]
        rintro (h1 | h1)
        · exact hne h1.symm
        · exact ihr h1
      | some t =>
        rw [removeInactive, hq]
        dsimp only
        by_cases ht : t < th
        · rw [if_pos ht]
          exact ihr
        · rw [if_neg ht]
          simp only [List.map_cons, List.mem_cons]
          rintro (h1 | h1)
          · exact hne h1.symm
          · exact ihr h1

theorem mem_removeInactive_of_fresh {th : ℚ} {l : List (UserId × List ℚ)}
    {p : UserId × List ℚ} (hp : p ∈ l) (hfresh : ∀ g ∈ p.2.getLast?, ¬ g < th) :
    p ∈ removeInactive th l := by
  induction l with
  | nil => cases hp
  | cons q rest ih =>
    rcases List.mem_cons.mp hp with rfl | hmem
    · cases hq : p.2.getLast? with
      | none =>
        rw [removeInactive, hq]
        dsimp only
        exact List.mem_cons_self _ _
      | some t =>
        rw [removeInactive, hq]
        dsimp only
        rw [if_neg (hfresh t (by rw [hq]; rfl))]
        exact List.mem_cons_self _ _
    · cases hq : q.2.getLast? with
      | none =>
        rw [removeInactive, hq]
        dsimp only
        exact List.mem_cons_of_mem q (ih hmem)
      | some t =>
        rw [removeInactive, hq]
        dsimp only
        by_cases ht : t < th
        · rw [if_pos ht]
          exact ih hmem
        · rw [if_neg ht]
          exact List.mem_cons_of_mem q (ih hmem)

/-! ### Chain' helpers for call traces -/

theorem chain'_getLastD_le {x y : ℚ} :
    ∀ (l₁ : List ℚ) {l₂ : List ℚ},
      List.Chain' (· ≤ ·) (x :: l₁ ++ y :: l₂) → l₁.getLastD x ≤ y
  | [], l₂, h => (List.chain'_cons.mp h).1
  | a :: l₁, l₂, h => by
    rw [List.getLastD_cons]
    exact chain'_getLastD_le l₁ ((List.chain'_cons.mp h).2)

theorem getLast?_cons_getLastD (x : ℚ) :
    ∀ l : List ℚ, (x :: l).getLast? = some (l.getLastD x)
  | [] => rfl
  | y :: m => by
    rw [List.getLast?_cons_cons, getLast?_cons_getLastD y m, List.getLastD_cons]

theorem headD_mem {l : List ℚ} (h : l ≠ []) (x : ℚ) : l.headD x ∈ l := by
  cases l with
  | nil => exact absurd rfl h
  | cons a m => exact List.mem_cons_self a m

/-! ### Claim C8 -/

/-- C8: the rate limiter's idle-reclamation sweep executes at most once per
`cleanup_interval` (300 s) — after an effective sweep at `t1`, any sweep
within 300 s is a no-op — and an effective sweep removes exactly those users
whose most recent recorded timestamp is more than 600 s (10 minutes) old,
leaving every other user's entry (and hence window) unchanged. -/
theorem rate_limiter_idle_reclamation (st : RLState) (t1 t2 : ℚ)
    (hnd : (st.user_requests.map Prod.fst).Nodup)
    (hrun : 300 ≤ t1 - st.last_cleanup) :
    (cleanup_old_entries t1 st).last_cleanup = t1 ∧
    ((cleanup_old_entries t1 st).user_requests).Sublist st.user_requests ∧
    (∀ p ∈ st.user_requests, ∀ g, p.2.getLast? = some g → 600 < t1 - g →
      p.1 ∉ ((cleanup_old_entries t1 st).user_requests).map Prod.fst) ∧
    (∀ p ∈ st.user_requests, (∀ g ∈ p.2.getLast?, t1 - g ≤ 600) →
      p ∈ (cleanup_old_entries t1 st).user_requests) ∧
    (t2 - t1 < 300 →
      cleanup_old_entries t2 (cleanup_old_entries t1 st) = cleanup_old_entries t1 st) := by
  have hguard : ¬ (t1 - st.last_cleanup < 300) := not_lt.mpr hrun
  have hcl : cleanup_old_entries t1 st =
      { user_requests := removeInactive (t1 - 600) st.user_requests, last_cleanup := t1 } := by
    rw [cleanup_old_entries, if_neg hguard]
  refine ⟨by rw [hcl], by rw [hcl]; exact removeInactive_sublist _ _, ?_, ?_, ?_⟩
  · intro p hp g hg hage
    rw [hcl]
    exact not_mem_keys_removeInactive hnd hp hg (by linarith)
  · intro p hp hfresh
    rw [hcl]
    exact mem_removeInactive_of_fresh hp
      (fun g hgmem => not_lt.mpr (by have := hfresh g hgmem; linarith))
  · intro hsoon
    rw [hcl]
    rw [cleanup_old_entries]
    rw [if_pos (by simpa using hsoon)]

/-- Witness for C8 at a concrete state: user 1 idle since time 0, user 2
active at 650, sweep at 1000, attempted re-sweep at 1100. -/
theorem rate_limiter_idle_reclamation_witness :
    ((((RLState.mk [(1, [0]), (2, [650])] 0).user_requests).map Prod.fst).Nodup ∧
      (300 : ℚ) ≤ 1000 - (RLState.mk [(1, [0]), (2, [650])] 0).last_cleanup) ∧
    ((cleanup_old_entries 1000 (RLState.mk [(1, [0]), (2, [650])] 0)).last_cleanup = 1000 ∧
    ((cleanup_old_entries 1000 (RLState.mk [(1, [0]), (2, [650])] 0)).user_requests).Sublist
      (RLState.mk [(1, [0]), (2, [650])] 0).user_requests ∧
    (∀ p ∈ (RLState.mk [(1, [0]), (2, [650])] 0).user_requests,
      ∀ g, p.2.getLast? = some g → 600 < 1000 - g →
      p.1 ∉ ((cleanup_old_entries 1000 (RLState.mk [(1, [0]), (2, [650])] 0)).user_requests).map
        Prod.fst) ∧
    (∀ p ∈ (RLState.mk [(1, [0]), (2, [650])] 0).user_requests,
      (∀ g ∈ p.2.getLast?, 1000 - g ≤ 600) →
      p ∈ (cleanup_old_entries 1000 (RLState.mk [(1, [0]), (2, [650])] 0)).user_requests) ∧
    ((1100 : ℚ) - 1000 < 300 →
      cleanup_old_entries 1100 (cleanup_old_entries 1000 (RLState.mk [(1, [0]), (2, [650])] 0)) =
        cleanup_old_entries 1000 (RLState.mk [(1, [0]), (2, [650])] 0))) :=
  ⟨⟨by decide, by norm_num⟩,
    rate_limiter_idle_reclamation (RLState.mk [(1, [0]), (2, [650])] 0) 1000 1100
      (by decide) (by norm_num)⟩

/-! ### Claim C7 -/

theorem alookup_applyTaskOp_cancelled (tid : String) (r : TaskRegistry) (op : TaskOp)
    (hop : op ≠ TaskOp.reg tid)
    (hc : ∀ e, alookup r tid = some e → e.cancelled = true) :
    ∀ e', alookup (applyTaskOp r op) tid = some e' → e'.cancelled = true := by
  intro e' he'
  match op with
  | TaskOp.reg tid' =>
    have hne : tid ≠ tid' := fun h => hop (by rw [h])
    rw [applyTaskOp, register_task, alookup_astore_ne _ _ hne] at he'
    exact hc e' he'
  | TaskOp.cancel tid' =>
    rw [applyTaskOp, cancel_task] at he'
    cases hl : alookup r tid' with
    | none =>
      rw [hl] at he'
      exact hc e' he'
    | some e0 =>
      rw [hl] at he'
      by_cases htid : tid = tid'
      · subst htid
        rw [alookup_astore_self] at he'
        cases he'
        rfl
      · rw [alookup_astore_ne _ _ htid] at he'
        exact hc e' he'
  | TaskOp.release tid' =>
    rw [applyTaskOp, release_task] at he'
    cases hl : alookup r tid' with
    | none =>
      rw [hl] at he'
      exact hc e' he'
    | some e0 =>
      rw [hl] at he'
      by_cases htid : tid = tid'
      · subst htid
        rw [alookup_aremove_self] at he'
        cases he'
      · rw [alookup_aremove_ne _ htid] at he'
        exact hc e' he'

theorem applyTaskOps_cancelled_mono (tid : String) :
    ∀ (ops : List TaskOp) (r : TaskRegistry), TaskOp.reg tid ∉ ops →
      (∀ e, alookup r tid = some e → e.cancelled = true) →
      ∀ e', alookup (applyTaskOps ops r) tid = some e' → e'.cancelled = true
  | [], _, _, hstart => hstart
  | op :: rest, r, hops, hstart => by
    have hop : op ≠ TaskOp.reg tid := fun h => hops (h ▸ List.mem_cons_self op rest)
    have hrest : TaskOp.reg tid ∉ rest := fun h => hops (List.mem_cons_of_mem op h)
    exact applyTaskOps_cancelled_mono tid rest (applyTaskOp r op) hrest
      (alookup_applyTaskOp_cancelled tid r op hop hstart)

/-- C7: once the cancellation flag of a registered task is true, any further
sequence of registry operations that does not re-register that id keeps it
true while the entry is present (a cancel request sets the flag, keeping the
progress field); and a cancel request for an id not in `active_tasks` is a
no-op — it does not recreate the entry and is not an error. -/
theorem task_cancellation_monotonic (tid : String) (r : TaskRegistry) (ops : List TaskOp)
    (hops : TaskOp.reg tid ∉ ops) :
    (∀ e, alookup r tid = some e →
      alookup (cancel_task tid r) tid = some { cancelled := true, progress := e.progress }) ∧
    (∀ e, alookup r tid = some e → e.cancelled = true →
      ∀ e', alookup (applyTaskOps ops r) tid = some e' → e'.cancelled = true) ∧
    (alookup r tid = none → cancel_task tid r = r) := by
  refine ⟨?_, ?_, ?_⟩
  · intro e he
    rw [cancel_task, he]
    exact alookup_astore_self tid _ r
  · intro e he hce
    refine applyTaskOps_cancelled_mono tid ops r hops ?_
    intro e0 he0
    rw [he] at he0
    cases he0
    exact hce
  · intro hnone
    rw [cancel_task, hnone]

/-- Witness for C7: a cancelled task `"t1"` stays cancelled across a cancel
of another id and a release of an unknown id; cancelling the absent `"t9"`
leaves the registry untouched. -/
theorem task_cancellation_monotonic_witness :
    (TaskOp.reg "t1" ∉ [TaskOp.cancel "t2", TaskOp.release "t9"]) ∧
    ((∀ e, alookup [("t1", TaskEntry.mk true 0), ("t2", TaskEntry.mk false 0)] "t1" = some e →
      alookup (cancel_task "t1" [("t1", TaskEntry.mk true 0), ("t2", TaskEntry.mk false 0)]) "t1"
        = some { cancelled := true, progress := e.progress }) ∧
    (∀ e, alookup [("t1", TaskEntry.mk true 0), ("t2", TaskEntry.mk false 0)] "t1" = some e →
      e.cancelled = true →
      ∀ e', alookup (applyTaskOps [TaskOp.cancel "t2", TaskOp.release "t9"]
        [("t1", TaskEntry.mk true 0), ("t2", TaskEntry.mk false 0)]) "t1" = some e' →
        e'.cancelled = true) ∧
    (alookup [("t1", TaskEntry.mk true 0), ("t2", TaskEntry.mk false 0)] "t1" = none →
      cancel_task "t1" [("t1", TaskEntry.mk true 0), ("t2", TaskEntry.mk false 0)] =
        [("t1", TaskEntry.mk true 0), ("t2", TaskEntry.mk false 0)])) :=
  ⟨by decide,
    task_cancellation_monotonic "t1" [("t1", TaskEntry.mk true 0), ("t2", TaskEntry.mk false 0)]
      [TaskOp.cancel "t2", TaskOp.release "t9"] (by decide)⟩

/-! ### Claim C1 -/

/-- C1 (amended): for every limiter with `window_seconds ≤ 600` — true of
every instance the program constructs (60, 60 and 120 seconds) — and every
time-ordered call trace: (a) a user who makes at most `max_requests` calls
is admitted on every one of them with `(true, 0)`; (b) a user who makes
`max_requests + 1` calls all within `window_seconds` of their first is
rejected on the last with a positive wait; (c) no rolling window of length
`window_seconds` ever contains more than `max_requests` admitted calls of
one user; (d) admitted call times are exactly what the deque records: the
stored deque is a sublist of the admitted times and still holds every
admitted time inside the final trailing window.  (Without the
`window_seconds ≤ 600` restriction the idle sweep can erase in-window
entries and (b),(c) fail, see the counterexample.) -/
theorem rate_limiter_sliding_window (cfg : RLConfig) (t0 : ℚ) (cs : List (ℚ × UserId))
    (hchain : List.Chain' (· ≤ ·) (t0 :: cs.map Prod.fst))
    (hmax : 1 ≤ cfg.max_requests) (hW : 0 < cfg.window_seconds)
    (h600 : cfg.window_seconds ≤ 600) :
    (∀ u, (callsOf u cs).length ≤ cfg.max_requests →
      ∀ e ∈ runLog cfg cs (initRateLimiter t0), e.1.2 = u → e.2 = (true, 0)) ∧
    (∀ u, (callsOf u cs).length = cfg.max_requests + 1 →
      (∀ c ∈ callsOf u cs, c.1 ≤ ((callsOf u cs).headD (0, u)).1 + cfg.window_seconds) →
      ∃ s w, ((runLog cfg cs (initRateLimiter t0)).filter
          (fun e => e.1.2 == u)).getLast? = some ((s, u), (false, w)) ∧ 0 < w) ∧
    (∀ u a, ((admittedTimes cfg cs (initRateLimiter t0) u).filter
        (fun t => decide (a ≤ t) && decide (t ≤ a + cfg.window_seconds))).length
          ≤ cfg.max_requests) ∧
    (∀ u, (lookupTimes (runCalls cfg cs (initRateLimiter t0)).user_requests u).Sublist
        (admittedTimes cfg cs (initRateLimiter t0) u) ∧
      (keepRecent ((cs.map Prod.fst).getLastD t0 - cfg.window_seconds)
        (admittedTimes cfg cs (initRateLimiter t0) u)).Sublist
          (lookupTimes (runCalls cfg cs (initRateLimiter t0)).user_requests u)) := by
  obtain ⟨hlog, hfin⟩ := run_refines cfg (le_of_lt hW) h600 cs t0 (fun _ => [])
    (initRateLimiter t0) (init_inv cfg t0) hchain
  have hadm : ∀ u, admittedTimes cfg cs (initRateLimiter t0) u
      = specAdmitted cfg cs (fun _ => []) u := by
    intro u
    unfold admittedTimes specAdmitted
    rw [hlog]
  have hAacc : ∀ u, specRun cfg cs (fun _ => []) u = specAdmitted cfg cs (fun _ => []) u := by
    intro u
    simpa using specRun_accumulates cfg u cs (fun _ => [])
  refine ⟨?_, ?_, ?_, ?_⟩
  · intro u hlen e he heu
    rw [hlog] at he
    exact specLog_all_admitted cfg u cs (fun _ => []) (by simpa using hlen) e he heu
  · intro u hlen hwin
    have hne : callsOf u cs ≠ [] := by
      intro h
      rw [h] at hlen
      simp at hlen
    obtain ⟨cs₁, c, cs₂, hceq, hcu, hnil, hsplit⟩ := exists_last_call u cs hne
    have hlen₁ : (callsOf u cs₁).length = cfg.max_requests := by
      rw [hsplit] at hlen
      rw [List.length_append] at hlen
      simp at hlen
      omega
    have hall : ∀ e ∈ specLog cfg cs₁ (fun _ => []), e.1.2 = u → e.2 = (true, 0) :=
      specLog_all_admitted cfg u cs₁ (fun _ => []) (by simp [hlen₁])
    have hA₁u : specRun cfg cs₁ (fun _ => []) u = (callsOf u cs₁).map Prod.fst := by
      rw [specRun_accumulates cfg u cs₁ (fun _ => [])]
      simp [specAdmitted_eq_times cfg u cs₁ (fun _ => []) hall]
    have hpw : cs.Pairwise (fun d e => d.1 ≤ e.1) := by
      have h1 : List.Chain' (· ≤ ·) (cs.map Prod.fst) := hchain.tail
      rw [List.chain'_iff_pairwise] at h1
      exact (List.pairwise_map).mp h1
    have hpwc : (callsOf u cs).Pairwise (fun d e => d.1 ≤ e.1) := by
      have hsub : (callsOf u cs).Sublist cs := by
        unfold callsOf
        exact List.filter_sublist cs
      exact hpw.sublist hsub
    have hhead : ∀ d ∈ callsOf u cs, ((callsOf u cs).headD (0, u)).1 ≤ d.1 := by
      intro d hd
      cases hcc : callsOf u cs with
      | nil =>
        rw [hcc] at hd
        cases hd
      | cons c0 rest0 =>
        rw [hcc] at hd hpwc
        rcases List.mem_cons.mp hd with rfl | hdr
        · simp
        · simpa using (List.pairwise_cons.mp hpwc).1 d hdr
    have hwin' : ∀ a ∈ specRun cfg cs₁ (fun _ => []) u,
        c.1 - cfg.window_seconds ≤ a := by
      intro a ha
      rw [hA₁u] at ha
      obtain ⟨d, hd, rfl⟩ := List.mem_map.mp ha
      have hd' : d ∈ callsOf u cs := by
        rw [hsplit]
        exact List.mem_append_left _ hd
      have h1 : ((callsOf u cs).headD (0, u)).1 ≤ d.1 := hhead d hd'
      have h2 : c.1 ≤ ((callsOf u cs).headD (0, u)).1 + cfg.window_seconds :=
        hwin c (by rw [hsplit]; exact List.mem_append_right _ (List.mem_cons_self c []))
      linarith
    have hkeep : keepRecent (c.1 - cfg.window_seconds) (specRun cfg cs₁ (fun _ => []) u)
        = specRun cfg cs₁ (fun _ => []) u := keepRecent_eq_self hwin'
    have hlenA : (specRun cfg cs₁ (fun _ => []) u).length = cfg.max_requests := by
      rw [hA₁u, List.length_map, hlen₁]
    have hdec : ¬ (keepRecent (c.1 - cfg.window_seconds)
        (specRun cfg cs₁ (fun _ => []) u)).length < cfg.max_requests := by
      rw [hkeep, hlenA]
      omega
    have hAne : specRun cfg cs₁ (fun _ => []) u ≠ [] := by
      intro h
      rw [h] at hlenA
      simp at hlenA
      omega
    refine ⟨c.1, pyInt ((keepRecent (c.1 - cfg.window_seconds)
        (specRun cfg cs₁ (fun _ => []) u)).headD 0 + cfg.window_seconds - c.1) + 1, ?_, ?_⟩
    · rw [hlog, hceq, specLog_append cfg cs₁ (c :: cs₂) (fun _ => []), List.filter_append]
      have hstep : specStep cfg c.1 c.2 (specRun cfg cs₁ (fun _ => [])) =
          ((false, pyInt ((keepRecent (c.1 - cfg.window_seconds)
            (specRun cfg cs₁ (fun _ => []) u)).headD 0 + cfg.window_seconds - c.1) + 1),
            specRun cfg cs₁ (fun _ => [])) := by
        rw [hcu]
        unfold specStep
        rw [if_neg hdec]
      have hlog2 : specLog cfg (c :: cs₂) (specRun cfg cs₁ (fun _ => [])) =
          (c, ((false : Bool), pyInt ((keepRecent (c.1 - cfg.window_seconds)
            (specRun cfg cs₁ (fun _ => []) u)).headD 0 + cfg.window_seconds - c.1) + 1)) ::
            specLog cfg cs₂ (specRun cfg cs₁ (fun _ => [])) := by
        rw [specLog, hstep]
      rw [hlog2, List.filter_cons]
      have hnil2 : (specLog cfg cs₂ (specRun cfg cs₁ (fun _ => []))).filter
          (fun e => e.1.2 == u) = [] :=
        specLog_no_user cfg u cs₂ _ hnil
      simp only [hcu, beq_self_eq_true, if_true, hnil2]
      rw [List.getLast?_concat]
      have hceta : c = (c.1, u) := by
        rw [← hcu]
      rw [← hceta]
    · have hmem : (keepRecent (c.1 - cfg.window_seconds)
          (specRun cfg cs₁ (fun _ => []) u)).headD 0 ∈ specRun cfg cs₁ (fun _ => []) u := by
        rw [hkeep]
        exact headD_mem hAne 0
      have hge := hwin' _ hmem
      have hx : (0:ℚ) ≤ (keepRecent (c.1 - cfg.window_seconds)
          (specRun cfg cs₁ (fun _ => []) u)).headD 0 + cfg.window_seconds - c.1 := by
        linarith
      have := pyInt_nonneg hx
      omega
  · intro u a
    rw [hadm u, ← hAacc u]
    refine specRun_window_le cfg cs (fun _ => []) ?_ u a
    intro u' a'
    simp
  · intro u
    obtain ⟨-, hA⟩ := hfin
    constructor
    · rw [hadm u, ← hAacc u]
      exact (hA u).2.2.1
    · rw [hadm u, ← hAacc u]
      exact (hA u).2.2.2

/-- C1 as stated is false for a limiter with `window_seconds > 600`: with
`max_requests = 5`, `window_seconds = 3600`, user 1 makes six calls (its
`max_requests + 1` calls, all within one window of the first), yet the sixth
is admitted with `(true, 0)` — user 2's call at 700 triggered the idle sweep,
which erased user 1's five in-window timestamps — so the rolling window
`[0, 3600]` holds six admitted calls of user 1, exceeding `max_requests`. -/
theorem rate_limiter_sliding_window_cex :
    (callsOf 1 [((0:ℚ), (1:UserId)), (1,1), (2,1), (3,1), (4,1), (700,2), (800,1)]).length
        = (RLConfig.mk 5 3600).max_requests + 1 ∧
    (∀ c ∈ callsOf 1 [((0:ℚ), (1:UserId)), (1,1), (2,1), (3,1), (4,1), (700,2), (800,1)],
      c.1 ≤ ((callsOf 1 [((0:ℚ), (1:UserId)), (1,1), (2,1), (3,1), (4,1), (700,2), (800,1)]).headD
        (0, 1)).1 + (RLConfig.mk 5 3600).window_seconds) ∧
    ((runLog (RLConfig.mk 5 3600)
        [((0:ℚ), (1:UserId)), (1,1), (2,1), (3,1), (4,1), (700,2), (800,1)]
        (initRateLimiter 0)).filter (fun e => e.1.2 == 1)).getLast?
      = some ((800, 1), (true, 0)) ∧
    (admittedTimes (RLConfig.mk 5 3600)
        [((0:ℚ), (1:UserId)), (1,1), (2,1), (3,1), (4,1), (700,2), (800,1)]
        (initRateLimiter 0) 1).filter
      (fun t => decide ((0:ℚ) ≤ t) && decide (t ≤ 0 + (3600:ℚ))) = [0, 1, 2, 3, 4, 800] ∧
    ¬ ((6:ℕ) ≤ (RLConfig.mk 5 3600).max_requests) := by
  refine ⟨?_, ?_, ?_, ?_, ?_⟩
  · norm_num [callsOf, List.filter_cons]
  · intro c hc
    fin_cases hc <;> norm_num [callsOf, List.filter_cons]
  · norm_num [runLog, check_rate_limit, lookupTimes, alookup, evictOld, astore,
      cleanup_old_entries, removeInactive, initRateLimiter, List.filter_cons]
  · norm_num [admittedTimes, runLog, check_rate_limit, lookupTimes, alookup, evictOld,
      astore, cleanup_old_entries, removeInactive, initRateLimiter, List.filterMap_cons,
      List.filter_cons]
  · norm_num

/-- C2's wait formula is not the ceiling when the argument is an exact
integer: with `max_requests = 1`, `window_seconds = 60`, a call at time 0
and a second call at time 30, the code returns a wait of
`int(0 + 60 - 30) + 1 = 31`, while `ceil(0 + 60 - 30) = 30`. -/
theorem check_rate_limit_wait_cex :
    (check_rate_limit (RLConfig.mk 1 60) 30 1
      (runCalls (RLConfig.mk 1 60) [((0:ℚ), (1:UserId))] (initRateLimiter 0))).1
        = (false, 31) ∧
    (⌈((0:ℚ) + 60 - 30)⌉ = (30:ℤ)) ∧ ((31:ℤ) ≠ 30) := by
  refine ⟨?_, ?_, by decide⟩
  · norm_num [runCalls, check_rate_limit, lookupTimes, alookup, evictOld, astore,
      cleanup_old_entries, removeInactive, initRateLimiter, pyInt]
  · norm_num

/-- Witness for C1 at `max_requests = 2`, `window_seconds = 60`, trace
`[(0,1), (10,1), (20,1)]` (conjunct (a) instantiated). -/
theorem rate_limiter_sliding_window_witness :
    (List.Chain' (· ≤ ·) ((0:ℚ) :: ([((0:ℚ), (1:UserId)), (10,1), (20,1)].map Prod.fst)) ∧
      1 ≤ (RLConfig.mk 2 60).max_requests ∧ (0:ℚ) < (RLConfig.mk 2 60).window_seconds ∧
      (RLConfig.mk 2 60).window_seconds ≤ 600) ∧
    (∀ u, (callsOf u [((0:ℚ), (1:UserId)), (10,1), (20,1)]).length
        ≤ (RLConfig.mk 2 60).max_requests →
      ∀ e ∈ runLog (RLConfig.mk 2 60) [((0:ℚ), (1:UserId)), (10,1), (20,1)]
          (initRateLimiter 0), e.1.2 = u → e.2 = (true, 0)) :=
  ⟨⟨by norm_num [List.chain'_cons], by norm_num, by norm_num, by norm_num⟩,
    (rate_limiter_sliding_window (RLConfig.mk 2 60) 0 [((0:ℚ), (1:UserId)), (10,1), (20,1)]
      (by norm_num [List.chain'_cons]) (by norm_num) (by norm_num) (by norm_num)).1⟩

/-! ### Claim C2 -/

/-- C2 (amended): on every rejection the returned wait is
`int(oldest + window_seconds - now) + 1` — that is, `⌊·⌋ + 1` of the
remaining life of the oldest admitted timestamp still inside the window,
which equals the ceiling exactly when that quantity is not an integer — the
wait is positive, and a call by the rejected user made `wait` seconds (or
more) later is admitted, however many other users call in between. -/
theorem check_rate_limit_retry (cfg : RLConfig) (t0 : ℚ) (cs₁ τ : List (ℚ × UserId))
    (s s' : ℚ) (u : UserId) (w : ℤ)
    (hchain : List.Chain' (· ≤ ·)
      (t0 :: (cs₁ ++ (s, u) :: (τ ++ [(s', u)])).map Prod.fst))
    (hmax : 1 ≤ cfg.max_requests) (hW : 0 < cfg.window_seconds)
    (h600 : cfg.window_seconds ≤ 600)
    (hτ : ∀ c ∈ τ, c.2 ≠ u)
    (hrej : (check_rate_limit cfg s u (runCalls cfg cs₁ (initRateLimiter t0))).1 = (false, w))
    (hwait : s + w ≤ s') :
    w = pyInt ((keepRecent (s - cfg.window_seconds)
        (admittedTimes cfg cs₁ (initRateLimiter t0) u)).headD 0 + cfg.window_seconds - s) + 1
    ∧ 0 < w
    ∧ (check_rate_limit cfg s' u
        (runCalls cfg (cs₁ ++ (s, u) :: τ) (initRateLimiter t0))).1 = (true, 0) := by
  -- decompose the time chain
  have hchain' : List.Chain' (· ≤ ·)
      ((t0 :: cs₁.map Prod.fst) ++ (s :: (τ.map Prod.fst ++ [s']))) := by
    have h := hchain
    rw [List.map_append, List.map_cons, List.map_append, List.map_cons] at h
    rw [← List.cons_append] at h
    exact h
  obtain ⟨hch1, hch2, hlink⟩ := List.chain'_append.mp hchain'
  have hT1s : (cs₁.map Prod.fst).getLastD t0 ≤ s := by
    refine hlink ((cs₁.map Prod.fst).getLastD t0) ?_ s rfl
    rw [getLast?_cons_getLastD]
    rfl
  -- refinement over the prefix
  obtain ⟨hlog₁, hfin₁⟩ := run_refines cfg (le_of_lt hW) h600 cs₁ t0 (fun _ => [])
    (initRateLimiter t0) (init_inv cfg t0) hch1
  obtain ⟨hdec₁, -⟩ := check_rate_limit_refines cfg s u hfin₁ hT1s (le_of_lt hW) h600
  rw [hrej] at hdec₁
  -- extract the rejection shape
  have hnotlt : ¬ (keepRecent (s - cfg.window_seconds)
      (specRun cfg cs₁ (fun _ => []) u)).length < cfg.max_requests := by
    intro hlt
    have hcontra : ((false, w) : Bool × ℤ) = (true, 0) := by
      rw [hdec₁]
      unfold specStep
      rw [if_pos hlt]
    simp at hcontra
  have hweq : w = pyInt ((keepRecent (s - cfg.window_seconds)
      (specRun cfg cs₁ (fun _ => []) u)).headD 0 + cfg.window_seconds - s) + 1 := by
    have h1 : (specStep cfg s u (specRun cfg cs₁ (fun _ => []))).1
        = (false, pyInt ((keepRecent (s - cfg.window_seconds)
          (specRun cfg cs₁ (fun _ => []) u)).headD 0 + cfg.window_seconds - s) + 1) := by
      unfold specStep
      rw [if_neg hnotlt]
    have h2 : ((false, w) : Bool × ℤ) = (false, pyInt ((keepRecent (s - cfg.window_seconds)
        (specRun cfg cs₁ (fun _ => []) u)).headD 0 + cfg.window_seconds - s) + 1) := by
      rw [hdec₁, h1]
    injection h2 with h2a h2b
  have hadmA : admittedTimes cfg cs₁ (initRateLimiter t0) u
      = specRun cfg cs₁ (fun _ => []) u := by
    have h1 : admittedTimes cfg cs₁ (initRateLimiter t0) u
        = specAdmitted cfg cs₁ (fun _ => []) u := by
      unfold admittedTimes specAdmitted
      rw [hlog₁]
    rw [h1]
    have h2 := specRun_accumulates cfg u cs₁ (fun _ => [])
    simp only [List.nil_append] at h2
    exact h2.symm
  -- the window is nonempty; its head is in the window, giving a positive wait
  have hwne : keepRecent (s - cfg.window_seconds) (specRun cfg cs₁ (fun _ => []) u) ≠ [] := by
    intro h
    rw [h] at hnotlt
    simp at hnotlt
    omega
  have hhead_mem : (keepRecent (s - cfg.window_seconds)
      (specRun cfg cs₁ (fun _ => []) u)).headD 0
        ∈ keepRecent (s - cfg.window_seconds) (specRun cfg cs₁ (fun _ => []) u) :=
    headD_mem hwne 0
  have hhead_ge : s - cfg.window_seconds ≤ (keepRecent (s - cfg.window_seconds)
      (specRun cfg cs₁ (fun _ => []) u)).headD 0 :=
    (mem_keepRecent.mp hhead_mem).2
  have hxnn : (0:ℚ) ≤ (keepRecent (s - cfg.window_seconds)
      (specRun cfg cs₁ (fun _ => []) u)).headD 0 + cfg.window_seconds - s := by
    linarith
  have hwpos : 0 < w := by
    rw [hweq]
    have := pyInt_nonneg hxnn
    omega
  refine ⟨by rw [hadmA]; exact hweq, hwpos, ?_⟩
  -- refinement over the longer prefix, up to the retry call
  have hsplit : cs₁ ++ (s, u) :: (τ ++ [(s', u)]) = (cs₁ ++ (s, u) :: τ) ++ [(s', u)] := by
    simp
  have hchain'' : List.Chain' (· ≤ ·)
      ((t0 :: (cs₁ ++ (s, u) :: τ).map Prod.fst) ++ [s']) := by
    have h := hchain
    rw [hsplit, List.map_append] at h
    rw [← List.cons_append] at h
    simpa using h
  obtain ⟨hch3, -, hlink2⟩ := List.chain'_append.mp hchain''
  have hT2s : ((cs₁ ++ (s, u) :: τ).map Prod.fst).getLastD t0 ≤ s' := by
    refine hlink2 (((cs₁ ++ (s, u) :: τ).map Prod.fst).getLastD t0) ?_ s' rfl
    rw [getLast?_cons_getLastD]
    rfl
  obtain ⟨hlog₂, hfin₂⟩ := run_refines cfg (le_of_lt hW) h600 (cs₁ ++ (s, u) :: τ) t0
    (fun _ => []) (initRateLimiter t0) (init_inv cfg t0) hch3
  obtain ⟨hdec₃, -⟩ := check_rate_limit_refines cfg s' u hfin₂ hT2s (le_of_lt hW) h600
  rw [hdec₃]
  -- the history of u is unchanged through the rejection and the foreign calls
  have hA2u : specRun cfg (cs₁ ++ (s, u) :: τ) (fun _ => []) u
      = specRun cfg cs₁ (fun _ => []) u := by
    rw [specRun_append cfg cs₁ ((s, u) :: τ) (fun _ => []), specRun]
    have hstep2 : (specStep cfg s u (specRun cfg cs₁ (fun _ => []))).2
        = specRun cfg cs₁ (fun _ => []) := by
      unfold specStep
      rw [if_neg hnotlt]
    rw [hstep2]
    exact specRun_frame cfg u τ _ hτ
  -- the in-window count at time s is exactly max_requests
  have hbound : (keepRecent (s - cfg.window_seconds)
      (specRun cfg cs₁ (fun _ => []) u)).length ≤ cfg.max_requests := by
    have hA := hfin₁.2
    have hle : ∀ a ∈ specRun cfg cs₁ (fun _ => []) u, a ≤ (cs₁.map Prod.fst).getLastD t0 :=
      (hA u).2.1
    have hcongr : keepRecent (s - cfg.window_seconds) (specRun cfg cs₁ (fun _ => []) u)
        = (specRun cfg cs₁ (fun _ => []) u).filter
          (fun t => decide (s - cfg.window_seconds ≤ t)
            && decide (t ≤ (s - cfg.window_seconds) + cfg.window_seconds)) := by
      rw [keepRecent_eq_filter]
      refine List.filter_congr (fun t ht => ?_)
      have h1 : t ≤ s := le_trans (hle t ht) hT1s
      have h2 : t ≤ (s - cfg.window_seconds) + cfg.window_seconds := by linarith
      simp [h2]
      exact fun _ => h1
    rw [hcongr]
    exact specRun_window_le cfg cs₁ (fun _ => []) (fun u' a' => by simp) u
      (s - cfg.window_seconds)
  -- so the oldest in-window entry leaves the window by time s', dropping the count
  have hs_lt : (keepRecent (s - cfg.window_seconds)
      (specRun cfg cs₁ (fun _ => []) u)).headD 0 < s' - cfg.window_seconds := by
    have hlt : (keepRecent (s - cfg.window_seconds)
        (specRun cfg cs₁ (fun _ => []) u)).headD 0 + cfg.window_seconds - s < (w:ℚ) := by
      rw [hweq]
      push_cast
      rw [pyInt_of_nonneg hxnn]
      have := Int.lt_floor_add_one ((keepRecent (s - cfg.window_seconds)
        (specRun cfg cs₁ (fun _ => []) u)).headD 0 + cfg.window_seconds - s)
      push_cast at this
      linarith
    have hws : (w:ℚ) ≤ s' - s := by
      have : s + (w:ℚ) ≤ s' := by exact_mod_cast hwait
      linarith
    linarith
  show (specStep cfg s' u (specRun cfg (cs₁ ++ (s, u) :: τ) (fun _ => []))).1 = (true, 0)
  unfold specStep
  have hlt3 : (keepRecent (s' - cfg.window_seconds)
      (specRun cfg (cs₁ ++ (s, u) :: τ) (fun _ => []) u)).length < cfg.max_requests := by
    rw [hA2u]
    have hss' : s - cfg.window_seconds ≤ s' - cfg.window_seconds := by
      have : (1:ℚ) ≤ (w:ℚ) := by exact_mod_cast hwpos
      linarith
    rw [← keepRecent_keepRecent hss' (specRun cfg cs₁ (fun _ => []) u)]
    cases hwin : keepRecent (s - cfg.window_seconds) (specRun cfg cs₁ (fun _ => []) u) with
    | nil => exact absurd hwin hwne
    | cons o tl =>
      have ho : o = (keepRecent (s - cfg.window_seconds)
          (specRun cfg cs₁ (fun _ => []) u)).headD 0 := by
        rw [hwin]
        rfl
      rw [keepRecent]
      rw [if_neg (not_le.mpr (by rw [← ho] at hs_lt; exact hs_lt))]
      have hlen_tl : tl.length + 1 ≤ cfg.max_requests := by
        have := hbound
        rw [hwin] at this
        simpa using this
      have hle_tl : (keepRecent (s' - cfg.window_seconds) tl).length ≤ tl.length :=
        (keepRecent_sublist_self _ _).length_le
      omega
  rw [if_pos hlt3]

/-- Witness for C2: the user rejected at time 30 with wait 31 (window 60,
limit 1, first call at time 0) is admitted again at time 61. -/
theorem check_rate_limit_retry_witness :
    (List.Chain' (· ≤ ·)
        ((0:ℚ) :: ([((0:ℚ), (1:UserId))] ++ (30, 1) :: ([] ++ [(61, 1)])).map Prod.fst) ∧
      (check_rate_limit (RLConfig.mk 1 60) 30 1
        (runCalls (RLConfig.mk 1 60) [((0:ℚ), (1:UserId))] (initRateLimiter 0))).1
          = (false, 31) ∧
      (30:ℚ) + ((31:ℤ):ℚ) ≤ 61) ∧
    (check_rate_limit (RLConfig.mk 1 60) 61 1
      (runCalls (RLConfig.mk 1 60) ([((0:ℚ), (1:UserId))] ++ (30, 1) :: [])
        (initRateLimiter 0))).1 = (true, 0) :=
  ⟨⟨by norm_num [List.chain'_cons],
    by norm_num [runCalls, check_rate_limit, lookupTimes, alookup, evictOld, astore,
      cleanup_old_entries, removeInactive, initRateLimiter, pyInt],
    by norm_num⟩,
    (check_rate_limit_retry (RLConfig.mk 1 60) 0 [((0:ℚ), (1:UserId))] [] 30 61 1 31
      (by norm_num [List.chain'_cons]) (by norm_num) (by norm_num) (by norm_num)
      (by simp)
      (by norm_num [runCalls, check_rate_limit, lookupTimes, alookup, evictOld, astore,
        cleanup_old_entries, removeInactive, initRateLimiter, pyInt])
      (by norm_num)).2.2⟩

/-! ### Claim C9 -/

/-- C9: in the Redis backend, deleting any stored session unconditionally
deletes its user's `user_session` lookup key — there is no check that the
key still points at the session being deleted — while every other session
record survives, so deleting a stale session erases the user's mapping to
their current session. -/
theorem redis_delete_session_clears_user_mapping (r : RedisStorage) (sid : String)
    (s : RedisSession) (hen : r.enabled = true)
    (hs : alookup r.db.sessions sid = some s) :
    alookup (redis_delete_session sid r).2.db.user_sessions s.user_id = none ∧
    (∀ sid', sid' ≠ sid →
      alookup (redis_delete_session sid r).2.db.sessions sid' = alookup r.db.sessions sid') ∧
    (redis_delete_session sid r).1 = true := by
  have hget : redis_get_session_data sid r = some s := by
    rw [redis_get_session_data, if_pos hen]
    exact hs
  refine ⟨?_, ?_, ?_⟩
  · simp [redis_delete_session, hen, hget, alookup_aremove_self]
  · intro sid' hne
    simp [redis_delete_session, hen, hget, alookup_aremove_ne _ hne]
  · simp [redis_delete_session, hen, hget]

/-- Witness for C9: user 7's lookup key points at the newer session `"7_9"`;
deleting the stale `"7_1"` erases that mapping while `"7_9"`'s record stays. -/
theorem redis_delete_session_clears_user_mapping_witness :
    ((RedisStorage.mk true (RedisDB.mk
        [("7_1", RedisSession.mk 7 1 [] []), ("7_9", RedisSession.mk 7 9 [] [])]
        [(7, "7_9")])).enabled = true ∧
      alookup (RedisStorage.mk true (RedisDB.mk
        [("7_1", RedisSession.mk 7 1 [] []), ("7_9", RedisSession.mk 7 9 [] [])]
        [(7, "7_9")])).db.sessions "7_1" = some (RedisSession.mk 7 1 [] []) ∧
      alookup (RedisStorage.mk true (RedisDB.mk
        [("7_1", RedisSession.mk 7 1 [] []), ("7_9", RedisSession.mk 7 9 [] [])]
        [(7, "7_9")])).db.user_sessions 7 = some "7_9" ∧ ("7_9" : String) ≠ "7_1") ∧
    (alookup (redis_delete_session "7_1" (RedisStorage.mk true (RedisDB.mk
        [("7_1", RedisSession.mk 7 1 [] []), ("7_9", RedisSession.mk 7 9 [] [])]
        [(7, "7_9")]))).2.db.user_sessions (RedisSession.mk 7 1 [] []).user_id = none ∧
      (∀ sid', sid' ≠ "7_1" →
        alookup (redis_delete_session "7_1" (RedisStorage.mk true (RedisDB.mk
          [("7_1", RedisSession.mk 7 1 [] []), ("7_9", RedisSession.mk 7 9 [] [])]
          [(7, "7_9")]))).2.db.sessions sid'
        = alookup (RedisStorage.mk true (RedisDB.mk
          [("7_1", RedisSession.mk 7 1 [] []), ("7_9", RedisSession.mk 7 9 [] [])]
          [(7, "7_9")])).db.sessions sid') ∧
      (redis_delete_session "7_1" (RedisStorage.mk true (RedisDB.mk
        [("7_1", RedisSession.mk 7 1 [] []), ("7_9", RedisSession.mk 7 9 [] [])]
        [(7, "7_9")]))).1 = true) :=
  ⟨⟨rfl, by simp [alookup], by simp [alookup], by decide⟩,
    redis_delete_session_clears_user_mapping _ "7_1" (RedisSession.mk 7 1 [] [])
      rfl (by simp [alookup])⟩

/-! ### Claim C10 -/

/-- C10: in the in-memory fallback store, `add_image` returns `True` for
every input; when the session id is absent nothing is stored (the state is
unchanged) yet the call still reports success, and `get_session_images`
for that id returns the empty list. -/
theorem memory_add_image_silent_success (st : SupaState) (sid image_path : String)
    (order : Int) (now : ℚ) (hmode : st.use_supabase = false) :
    (supa_add_image sid image_path order now st).1 = true ∧
    (alookup st.memory_store sid = none →
      supa_add_image sid image_path order now st = (true, st) ∧
      supa_get_session_images sid st = []) := by
  constructor
  · rw [supa_add_image]
    rw [if_neg (by rw [hmode]; exact Bool.false_ne_true)]
    cases hl : alookup st.memory_store sid with
    | none => rfl
    | some s => rfl
  · intro habs
    constructor
    · rw [supa_add_image]
      rw [if_neg (by rw [hmode]; exact Bool.false_ne_true), habs]
    · rw [supa_get_session_images]
      rw [if_neg (by rw [hmode]; exact Bool.false_ne_true), habs]

/-- Witness for C10 at the empty memory store and session id `"s"`. -/
theorem memory_add_image_silent_success_witness :
    ((SupaState.mk false (SupabaseDB.mk [] [] []) []).use_supabase = false) ∧
    ((supa_add_image "s" "p" 0 0 (SupaState.mk false (SupabaseDB.mk [] [] []) [])).1 = true ∧
      (alookup (SupaState.mk false (SupabaseDB.mk [] [] []) []).memory_store "s" = none →
        supa_add_image "s" "p" 0 0 (SupaState.mk false (SupabaseDB.mk [] [] []) [])
          = (true, SupaState.mk false (SupabaseDB.mk [] [] []) []) ∧
        supa_get_session_images "s" (SupaState.mk false (SupabaseDB.mk [] [] []) []) = [])) :=
  ⟨rfl, memory_add_image_silent_success (SupaState.mk false (SupabaseDB.mk [] [] []) [])
    "s" "p" 0 0 rfl⟩

/-! ### Claim C6 -/

theorem removeObjects_nil (objs : List String) : removeObjects [] objs = objs := by
  rw [removeObjects]
  exact List.filter_eq_self.mpr (fun o _ => by simp)

theorem filter_self_idem {α : Type} (p : α → Bool) (l : List α) :
    (l.filter p).filter p = l.filter p := by
  rw [List.filter_filter]
  exact List.filter_congr (fun a _ => by cases p a <;> simp)

theorem filter_after_neg {α β : Type} [BEq β] (f : α → β) (k : β) (l : List α) :
    (l.filter (fun r => !(f r == k))).filter (fun r => f r == k) = [] := by
  rw [List.filter_filter]
  rw [List.filter_eq_nil_iff]
  intro a _
  cases f a == k <;> simp

/-- C6: `deleteSession` is idempotent in every backend.  Redis: deleting an
id with no stored record returns `True` and leaves the store unchanged, and
a second delete of the same id leaves the state of the first delete
unchanged.  Supabase/memory module: deleting an id that appears in no
session row, no image row and not in the memory store is the identity, and
deleting the same id twice equals deleting it once (in both `USE_SUPABASE`
modes).  No path raises: every branch returns normally. -/
theorem delete_session_idempotent :
    (∀ (r : RedisStorage) (sid : String), r.enabled = true →
      (alookup r.db.sessions sid = none → redis_delete_session sid r = (true, r)) ∧
      redis_delete_session sid (redis_delete_session sid r).2
        = (true, (redis_delete_session sid r).2)) ∧
    (∀ (st : SupaState) (sid : String),
      (sid ∉ st.db.multipdf_sessions.map (fun row => row.session_id) →
        sid ∉ st.db.session_images.map (fun row => row.session_id) →
        alookup st.memory_store sid = none →
        supa_delete_session sid st = st) ∧
      supa_delete_session sid (supa_delete_session sid st) = supa_delete_session sid st) := by
  have habsR : ∀ (r : RedisStorage) (sid : String), r.enabled = true →
      alookup r.db.sessions sid = none → redis_delete_session sid r = (true, r) := by
    intro r sid hen habs
    have hget : redis_get_session_data sid r = none := by
      rw [redis_get_session_data, if_pos hen]
      exact habs
    obtain ⟨en, ⟨ss, us⟩⟩ := r
    simp only [redis_delete_session, hget] at *
    rw [if_pos hen]
    simp [aremove_eq_self habs]
  constructor
  · intro r sid hen
    refine ⟨habsR r sid hen, ?_⟩
    have hget : alookup (redis_delete_session sid r).2.db.sessions sid = none := by
      cases hl : redis_get_session_data sid r with
      | none =>
        obtain ⟨en, ⟨ss, us⟩⟩ := r
        simp only [redis_delete_session, hl]
        rw [if_pos hen]
        simpa using alookup_aremove_self sid ss
      | some s =>
        obtain ⟨en, ⟨ss, us⟩⟩ := r
        simp only [redis_delete_session, hl]
        rw [if_pos hen]
        simpa using alookup_aremove_self sid ss
    have hen' : (redis_delete_session sid r).2.enabled = true := by
      cases hl : redis_get_session_data sid r with
      | none =>
        obtain ⟨en, ⟨ss, us⟩⟩ := r
        simp only [redis_delete_session, hl]
        rw [if_pos hen]
        simpa using hen
      | some s =>
        obtain ⟨en, ⟨ss, us⟩⟩ := r
        simp only [redis_delete_session, hl]
        rw [if_pos hen]
        simpa using hen
    exact habsR _ sid hen' hget
  · intro st sid
    constructor
    · intro hrows himgs hmem
      have h1 : st.db.multipdf_sessions.filter (fun row => !(row.session_id == sid))
          = st.db.multipdf_sessions :=
        List.filter_eq_self.mpr (fun row hrow => by
          simp only [Bool.not_eq_true']
          rw [beq_eq_false_iff_ne]
          intro he
          exact hrows (he ▸ List.mem_map_of_mem _ hrow))
      have h2 : st.db.session_images.filter (fun row => !(row.session_id == sid))
          = st.db.session_images :=
        List.filter_eq_self.mpr (fun row hrow => by
          simp only [Bool.not_eq_true']
          rw [beq_eq_false_iff_ne]
          intro he
          exact himgs (he ▸ List.mem_map_of_mem _ hrow))
      have h3 : st.db.session_images.filter (fun row => row.session_id == sid) = [] := by
        rw [List.filter_eq_nil_iff]
        intro row hrow h
        exact himgs ((eq_of_beq h) ▸ List.mem_map_of_mem _ hrow)
      obtain ⟨mode, ⟨rows, imgs, objs⟩, mem⟩ := st
      simp only at h1 h2 h3 hmem
      cases mode with
      | false => simp [supa_delete_session, aremove_eq_self hmem]
      | true => simp [supa_delete_session, h1, h2, h3, removeObjects_nil,
          aremove_eq_self hmem]
    · obtain ⟨mode, ⟨rows, imgs, objs⟩, mem⟩ := st
      cases mode with
      | false =>
        simp only [supa_delete_session]
        simp [aremove_eq_self (alookup_aremove_self sid mem)]
      | true =>
        simp only [supa_delete_session]
        simp [filter_self_idem, filter_after_neg, removeObjects_nil,
          aremove_eq_self (alookup_aremove_self sid mem)]

/-- Witness for C6 at concrete states: an enabled Redis store holding one
session, and a Supabase-mode store holding one row, with an absent id
deleted in each. -/
theorem delete_session_idempotent_witness :
    redis_delete_session "b" (RedisStorage.mk true (RedisDB.mk
        [("a", RedisSession.mk 1 0 [] [])] [(1, "a")]))
      = (true, RedisStorage.mk true (RedisDB.mk [("a", RedisSession.mk 1 0 [] [])]
          [(1, "a")])) ∧
    supa_delete_session "x" (SupaState.mk true (SupabaseDB.mk
        [SBSessionRow.mk "y" 1 "collecting" 0 0] [] []) [])
      = SupaState.mk true (SupabaseDB.mk [SBSessionRow.mk "y" 1 "collecting" 0 0] [] []) [] :=
  ⟨((delete_session_idempotent.1 (RedisStorage.mk true (RedisDB.mk
      [("a", RedisSession.mk 1 0 [] [])] [(1, "a")])) "b" rfl).1 rfl),
    ((delete_session_idempotent.2 (SupaState.mk true (SupabaseDB.mk
      [SBSessionRow.mk "y" 1 "collecting" 0 0] [] []) []) "x").1
      (by simp) (by simp) rfl)⟩

/-! ### Claim C3 -/

theorem pairwise_le_mergeSortKey {α : Type} (f : α → Int) (l : List α) :
    (l.mergeSort (fun a b => decide (f a ≤ f b))).Pairwise (fun a b => f a ≤ f b) := by
  have h : (l.mergeSort (fun a b => decide (f a ≤ f b))).Pairwise
      (fun a b => decide (f a ≤ f b) = true) :=
    List.sorted_mergeSort
      (fun a b c hab hbc => by
        rw [decide_eq_true_eq] at hab hbc ⊢
        exact le_trans hab hbc)
      (fun a b => by
        rw [Bool.or_eq_true, decide_eq_true_eq, decide_eq_true_eq]
        exact le_total (f a) (f b))
      l
  exact h.imp (fun hx => of_decide_eq_true hx)

theorem pairwise_lt_of_key_nodup {α : Type} (f : α → Int) {l : List α}
    (hle : l.Pairwise (fun a b => f a ≤ f b)) (hnd : (l.map f).Nodup) :
    l.Pairwise (fun a b => f a < f b) := by
  rw [List.Nodup, List.pairwise_map] at hnd
  exact (hle.and hnd).imp (fun h => lt_of_le_of_ne h.1 h.2)

theorem fold_add_image_memory (sid : String) (now : ℚ) :
    ∀ (adds : List (String × Int)) (st : SupaState) (s : MemSession),
      st.use_supabase = false → alookup st.memory_store sid = some s →
      supa_get_session_images sid
          (adds.foldl (fun acc p => (supa_add_image sid p.1 p.2 now acc).2) st)
        = s.images ++ adds.map Prod.fst
  | [], st, s, hmode, hmem => by
    rw [List.foldl_nil, List.map_nil, List.append_nil]
    rw [supa_get_session_images, if_neg (by rw [hmode]; exact Bool.false_ne_true), hmem]
  | p :: rest, st, s, hmode, hmem => by
    have hstep : (supa_add_image sid p.1 p.2 now st).2
        = { st with memory_store :=
                      astore sid { s with images := s.images ++ [p.1] } st.memory_store } := by
      rw [supa_add_image, if_neg (by rw [hmode]; exact Bool.false_ne_true), hmem]
    rw [List.foldl_cons, hstep]
    have hrec := fold_add_image_memory sid now rest
      { st with memory_store :=
                  astore sid { s with images := s.images ++ [p.1] } st.memory_store }
      { s with images := s.images ++ [p.1] }
      hmode (alookup_astore_self sid _ st.memory_store)
    rw [hrec]
    simp [List.append_assoc]

/-- C3: `getItems` ordering.  The Redis backend and the Supabase persistent
backend return item references sorted ascending by order index (strictly so
when the stored order values are distinct): for Redis the returned path list
is the stored image list sorted by `order`, and in Supabase mode the i-th
returned local path receives the i-th of the stored object paths sorted by
`image_order`.  The in-memory fallback, however, ignores the order argument
entirely: after any sequence of `add_image` calls it returns paths in call
order, so the scenario "add orders [2,0,1], get back [item@0, item@1,
item@2]" fails there (counterexample) while holding for Redis (final
conjunct: orders 2, 0, 1 on paths "a", "b", "c" come back as
["b", "c", "a"]). -/
theorem get_items_sorted_by_order :
    (∀ (r : RedisStorage) (sid : String) (s : RedisSession),
      r.enabled = true → alookup r.db.sessions sid = some s →
      ∃ l : List RedisImage, l.Perm s.images ∧
        l.Pairwise (fun a b => a.order ≤ b.order) ∧
        ((s.images.map (fun img => img.order)).Nodup →
          l.Pairwise (fun a b => a.order < b.order)) ∧
        redis_get_session_images sid r = l.map (fun img => img.path)) ∧
    (∀ (st : SupaState) (sid : String), st.use_supabase = true →
      ∃ l : List SBImageRow,
        l.Perm (st.db.session_images.filter (fun row => row.session_id == sid)) ∧
        l.Pairwise (fun a b => a.image_order ≤ b.image_order) ∧
        (((st.db.session_images.filter (fun row => row.session_id == sid)).map
            (fun row => row.image_order)).Nodup →
          l.Pairwise (fun a b => a.image_order < b.image_order)) ∧
        supa_downloaded_sources sid st = l.map (fun row => row.image_path)) ∧
    (∀ (st : SupaState) (sid : String) (s : MemSession) (adds : List (String × Int)) (now : ℚ),
      st.use_supabase = false → alookup st.memory_store sid = some s →
      supa_get_session_images sid
          (adds.foldl (fun acc p => (supa_add_image sid p.1 p.2 now acc).2) st)
        = s.images ++ adds.map Prod.fst) ∧
    redis_get_session_images "s" (RedisStorage.mk true (RedisDB.mk
        [("s", RedisSession.mk 1 0 [RedisImage.mk "a" 2 0, RedisImage.mk "b" 0 0,
          RedisImage.mk "c" 1 0] [])] [(1, "s")]))
      = ["b", "c", "a"] := by
  refine ⟨?_, ?_, ?_, ?_⟩
  · intro r sid s hen hs
    have hperm : (sortByOrder s.images).Perm s.images := List.mergeSort_perm s.images _
    have hle : (sortByOrder s.images).Pairwise (fun a b => a.order ≤ b.order) :=
      pairwise_le_mergeSortKey (fun img : RedisImage => img.order) s.images
    refine ⟨sortByOrder s.images, hperm, hle, ?_, ?_⟩
    · intro hnd
      exact pairwise_lt_of_key_nodup (fun img : RedisImage => img.order) hle
        (List.Perm.nodup (List.Perm.symm (List.Perm.map (fun img : RedisImage => img.order) hperm)) hnd)
    · have hget : redis_get_session_data sid r = some s := by
        rw [redis_get_session_data, if_pos hen]
        exact hs
      rw [redis_get_session_images, if_pos hen, hget]
  · intro st sid _
    have hperm : (sessionImageRows sid st.db).Perm
        (st.db.session_images.filter (fun row => row.session_id == sid)) :=
      List.mergeSort_perm _ _
    have hle : (sessionImageRows sid st.db).Pairwise
        (fun a b => a.image_order ≤ b.image_order) :=
      pairwise_le_mergeSortKey (fun row : SBImageRow => row.image_order) _
    refine ⟨sessionImageRows sid st.db, hperm, hle, ?_, rfl⟩
    intro hnd
    exact pairwise_lt_of_key_nodup (fun row : SBImageRow => row.image_order) hle
      (List.Perm.nodup (List.Perm.symm (List.Perm.map (fun row : SBImageRow => row.image_order) hperm)) hnd)
  · intro st sid s adds now hmode hmem
    exact fold_add_image_memory sid now adds st s hmode hmem
  · have hperm2 : ([RedisImage.mk "a" 2 0, RedisImage.mk "b" 0 0,
        RedisImage.mk "c" 1 0] : List RedisImage).Perm
        [RedisImage.mk "b" 0 0, RedisImage.mk "c" 1 0, RedisImage.mk "a" 2 0] := by
      decide
    have hperm : (sortByOrder [RedisImage.mk "a" 2 0, RedisImage.mk "b" 0 0,
        RedisImage.mk "c" 1 0]).Perm
        [RedisImage.mk "b" 0 0, RedisImage.mk "c" 1 0, RedisImage.mk "a" 2 0] :=
      (List.mergeSort_perm _ _).trans hperm2
    have hle : (sortByOrder [RedisImage.mk "a" 2 0, RedisImage.mk "b" 0 0,
        RedisImage.mk "c" 1 0]).Pairwise (fun a b => a.order ≤ b.order) :=
      pairwise_le_mergeSortKey (fun img : RedisImage => img.order) _
    have hnd : ((sortByOrder [RedisImage.mk "a" 2 0, RedisImage.mk "b" 0 0,
        RedisImage.mk "c" 1 0]).map (fun img => img.order)).Nodup :=
      List.Perm.nodup (List.Perm.symm (List.Perm.map (fun img : RedisImage => img.order) hperm)) (by decide)
    have hs1 : (sortByOrder [RedisImage.mk "a" 2 0, RedisImage.mk "b" 0 0,
        RedisImage.mk "c" 1 0]).Pairwise (fun a b => a.order < b.order) :=
      pairwise_lt_of_key_nodup (fun img : RedisImage => img.order) hle hnd
    haveI : IsAntisymm RedisImage (fun a b => a.order < b.order) :=
      ⟨fun a b h1 h2 => absurd (lt_trans h1 h2) (lt_irrefl _)⟩
    have hsort : sortByOrder [RedisImage.mk "a" 2 0, RedisImage.mk "b" 0 0,
        RedisImage.mk "c" 1 0]
        = [RedisImage.mk "b" 0 0, RedisImage.mk "c" 1 0, RedisImage.mk "a" 2 0] :=
      List.eq_of_perm_of_sorted hperm hs1 (by decide)
    have hget : redis_get_session_data "s" (RedisStorage.mk true (RedisDB.mk
        [("s", RedisSession.mk 1 0 [RedisImage.mk "a" 2 0, RedisImage.mk "b" 0 0,
          RedisImage.mk "c" 1 0] [])] [(1, "s")]))
        = some (RedisSession.mk 1 0 [RedisImage.mk "a" 2 0, RedisImage.mk "b" 0 0,
          RedisImage.mk "c" 1 0] []) := by
      rw [redis_get_session_data, if_pos rfl, alookup, if_pos rfl]
    rw [redis_get_session_images, if_pos rfl, hget]
    dsimp only
    rw [hsort]
    rfl

/-- Counterexample for C3: in the in-memory fallback, adding images with
orders [2, 0, 1] (paths "a", "b", "c") and retrieving returns ["a", "b", "c"]
— call order, not ["b", "c", "a"], the ascending-order result the claim
requires of every backend. -/
theorem get_items_sorted_by_order_cex :
    supa_get_session_images "s"
        ((supa_add_image "s" "c" 1 0 ((supa_add_image "s" "b" 0 0
          ((supa_add_image "s" "a" 2 0 (SupaState.mk false (SupabaseDB.mk [] [] [])
            [("s", MemSession.mk 1 "collecting" [] 0)])).2)).2)).2)
      = ["a", "b", "c"] ∧ (["a", "b", "c"] : List String) ≠ ["b", "c", "a"] := by
  constructor
  · decide
  · decide

/-- Witness for C3's memory conjunct at a concrete store: two adds append in
call order. -/
theorem get_items_sorted_by_order_witness :
    supa_get_session_images "s"
        (([("a", (2 : Int)), ("b", (0 : Int))]).foldl
          (fun acc p => (supa_add_image "s" p.1 p.2 0 acc).2)
          (SupaState.mk false (SupabaseDB.mk [] [] [])
            [("s", MemSession.mk 1 "collecting" [] 0)]))
      = (MemSession.mk 1 "collecting" [] 0).images
          ++ ([("a", (2 : Int)), ("b", (0 : Int))]).map Prod.fst :=
  get_items_sorted_by_order.2.2.1
    (SupaState.mk false (SupabaseDB.mk [] [] []) [("s", MemSession.mk 1 "collecting" [] 0)])
    "s" (MemSession.mk 1 "collecting" [] 0) [("a", (2 : Int)), ("b", (0 : Int))] 0
    rfl (by rw [alookup, if_pos rfl])

/-! ### Claim C5 -/

theorem mem_astore_self {α β : Type} [DecidableEq α] (k : α) (v : β) :
    ∀ l : List (α × β), (k, v) ∈ astore k v l
  | [] => by rw [astore]; exact List.mem_singleton_self _
  | p :: rest => by
    rw [astore]
    by_cases h : p.1 = k
    · rw [if_pos h]
      exact List.mem_cons_self _ _
    · rw [if_neg h]
      exact List.mem_cons_of_mem _ (mem_astore_self k v rest)

theorem delete_fold_rows : ∀ (ids : List String) (st : SupaState),
    st.use_supabase = true →
    ((ids.foldl (fun acc sid => supa_delete_session sid acc) st).use_supabase = true ∧
      (ids.foldl (fun acc sid => supa_delete_session sid acc) st).db.multipdf_sessions
        = st.db.multipdf_sessions.filter (fun row => !(ids.contains row.session_id)))
  | [], st, hmode => by
    refine ⟨hmode, ?_⟩
    rw [List.foldl_nil]
    exact (List.filter_eq_self.mpr (fun row _ => by simp)).symm
  | id :: rest, st, hmode => by
    obtain ⟨mode, ⟨rows, imgs, objs⟩, mem⟩ := st
    cases mode with
    | false => simp at hmode
    | true =>
      have hdel : supa_delete_session id
          (SupaState.mk true (SupabaseDB.mk rows imgs objs) mem)
          = SupaState.mk true (SupabaseDB.mk
              (rows.filter (fun row => !(row.session_id == id)))
              (imgs.filter (fun row => !(row.session_id == id)))
              (removeObjects ((imgs.filter (fun row => row.session_id == id)).map
                (fun row => row.image_path)) objs))
            (aremove id mem) := by
        simp [supa_delete_session]
      rw [List.foldl_cons, hdel]
      obtain ⟨hm, hr⟩ := delete_fold_rows rest
        (SupaState.mk true (SupabaseDB.mk
          (rows.filter (fun row => !(row.session_id == id)))
          (imgs.filter (fun row => !(row.session_id == id)))
          (removeObjects ((imgs.filter (fun row => row.session_id == id)).map
            (fun row => row.image_path)) objs))
          (aremove id mem)) rfl
      refine ⟨hm, ?_⟩
      rw [hr]
      dsimp only
      rw [List.filter_filter]
      apply List.filter_congr
      intro row _
      rw [List.contains_cons, Bool.not_or]
      exact Bool.and_comm _ _

theorem cleanup_rows_eq (rows : List SBSessionRow) (imgs : List SBImageRow)
    (objs : List String) (mem : List (String × MemSession)) (maxAge now : ℚ) :
    (supa_cleanup_old_sessions maxAge now
        (SupaState.mk true (SupabaseDB.mk rows imgs objs) mem)).db.multipdf_sessions
      = (rows.filter (fun row => !(row.status == "completed"))).filter
          (fun row => !((((rows.filter (fun row => !(row.status == "completed"))).filter
              (fun row => decide (maxAge < now - (row.created_at : ℚ)))).map
                (fun row => row.session_id)).contains row.session_id)) := by
  have hres : (supa_cleanup_old_sessions maxAge now
      (SupaState.mk true (SupabaseDB.mk rows imgs objs) mem)).db.multipdf_sessions
      = ((((rows.filter (fun row => !(row.status == "completed"))).filter
            (fun row => decide (maxAge < now - (row.created_at : ℚ)))).map
              (fun row => row.session_id)).foldl
          (fun acc sid => supa_delete_session sid acc)
          (SupaState.mk true (SupabaseDB.mk
            (rows.filter (fun row => !(row.status == "completed")))
            (imgs.filter (fun row =>
              !(((rows.filter (fun srow => srow.status == "completed")).map
                  (fun srow => srow.session_id)).contains row.session_id))) objs)
            mem)).db.multipdf_sessions := rfl
  rw [hres]
  exact (delete_fold_rows _ _ rfl).2

theorem gc_mem_iff (st : SupaState) (maxAge now : ℚ) (p : String × MemSession)
    (hmode : st.use_supabase = false) :
    p ∈ (supa_cleanup_old_sessions maxAge now st).memory_store ↔
      p ∈ st.memory_store ∧ ¬(maxAge < now - (p.2.created_at : ℚ)) := by
  obtain ⟨mode, db, mem⟩ := st
  cases mode with
  | true => simp at hmode
  | false =>
    have h0 : (supa_cleanup_old_sessions maxAge now
        (SupaState.mk false db mem)).memory_store = memSweep maxAge now mem := rfl
    rw [h0, memSweep]
    simp only [List.mem_filter, Bool.not_eq_true', decide_eq_false_iff_not]

theorem gc_keeps_fresh (st : SupaState) (maxAge now : ℚ) (row : SBSessionRow)
    (hmode : st.use_supabase = true)
    (hnd : (st.db.multipdf_sessions.map (fun r => r.session_id)).Nodup)
    (hrow : row ∈ st.db.multipdf_sessions) (hne : row.status ≠ "completed")
    (hfresh : ¬(maxAge < now - (row.created_at : ℚ))) :
    row ∈ (supa_cleanup_old_sessions maxAge now st).db.multipdf_sessions := by
  obtain ⟨mode, ⟨rows, imgs, objs⟩, mem⟩ := st
  cases mode with
  | false => simp at hmode
  | true =>
    rw [cleanup_rows_eq]
    have hkept : row ∈ rows.filter (fun row => !(row.status == "completed")) :=
      List.mem_filter.mpr ⟨hrow, by rw [beq_eq_false_iff_ne.mpr hne]; rfl⟩
    refine List.mem_filter.mpr ⟨hkept, ?_⟩
    cases hcc : (((rows.filter (fun row => !(row.status == "completed"))).filter
        (fun row => decide (maxAge < now - (row.created_at : ℚ)))).map
          (fun row => row.session_id)).contains row.session_id with
    | false => rfl
    | true =>
      exfalso
      have hin : row.session_id ∈ ((rows.filter (fun row => !(row.status == "completed"))).filter
          (fun row => decide (maxAge < now - (row.created_at : ℚ)))).map
            (fun row => row.session_id) := List.elem_iff.mp hcc
      obtain ⟨row', hrow', heq⟩ := List.mem_map.mp hin
      have hrow'mem : row' ∈ rows :=
        List.mem_of_mem_filter (List.mem_of_mem_filter hrow')
      have hold' : decide (maxAge < now - (row'.created_at : ℚ)) = true :=
        (List.mem_filter.mp hrow').2
      have : row' = row := List.inj_on_of_nodup_map hnd hrow'mem hrow heq
      rw [this] at hold'
      exact hfresh (of_decide_eq_true hold')

/-- C5: one GC pass against the session store.  In the Supabase backend it
behaves as specified: no `completed` row survives, every non-terminal row
older than the maximum age is deleted, every fresh non-terminal row survives
(given distinct session ids), and a status update refreshes `created_at` to
the update time so the refreshed row survives a later GC pass that comes
within the TTL of the refresh.  The in-memory store drops entries by age
only: an entry survives iff its `created_at` is within the TTL — its
`status`, `"completed"` included, is ignored (the counterexample shows a
fresh completed memory session surviving a pass) — and a memory status
update likewise refreshes `created_at`, so the refreshed record survives a
GC pass within the TTL. -/
theorem gc_pass_deletes_and_preserves :
    (∀ (st : SupaState) (maxAge now : ℚ), st.use_supabase = true →
      ∀ row ∈ (supa_cleanup_old_sessions maxAge now st).db.multipdf_sessions,
        row.status ≠ "completed") ∧
    (∀ (st : SupaState) (maxAge now : ℚ) (row : SBSessionRow), st.use_supabase = true →
      row ∈ st.db.multipdf_sessions → row.status ≠ "completed" →
      maxAge < now - (row.created_at : ℚ) →
      row.session_id ∉ (supa_cleanup_old_sessions maxAge now st).db.multipdf_sessions.map
        (fun r => r.session_id)) ∧
    (∀ (st : SupaState) (maxAge now : ℚ) (row : SBSessionRow), st.use_supabase = true →
      (st.db.multipdf_sessions.map (fun r => r.session_id)).Nodup →
      row ∈ st.db.multipdf_sessions → row.status ≠ "completed" →
      ¬(maxAge < now - (row.created_at : ℚ)) →
      row ∈ (supa_cleanup_old_sessions maxAge now st).db.multipdf_sessions) ∧
    (∀ (st : SupaState) (maxAge now : ℚ) (p : String × MemSession),
      st.use_supabase = false →
      (p ∈ (supa_cleanup_old_sessions maxAge now st).memory_store ↔
        p ∈ st.memory_store ∧ ¬(maxAge < now - (p.2.created_at : ℚ)))) ∧
    (∀ (st : SupaState) (sid status : String) (s : MemSession) (maxAge now now' : ℚ),
      st.use_supabase = false → alookup st.memory_store sid = some s →
      ¬(maxAge < now' - ((pyInt now : ℤ) : ℚ)) →
      (sid, { s with status := status, created_at := pyInt now })
        ∈ (supa_cleanup_old_sessions maxAge now'
            (supa_update_session_status sid status now st)).memory_store) ∧
    (∀ (st : SupaState) (sid status : String) (row : SBSessionRow) (maxAge now now' : ℚ),
      st.use_supabase = true →
      (st.db.multipdf_sessions.map (fun r => r.session_id)).Nodup →
      row ∈ st.db.multipdf_sessions → row.session_id = sid → status ≠ "completed" →
      ¬(maxAge < now' - ((pyInt now : ℤ) : ℚ)) →
      { row with status := status, updated_at := pyInt now, created_at := pyInt now }
        ∈ (supa_cleanup_old_sessions maxAge now'
            (supa_update_session_status sid status now st)).db.multipdf_sessions) := by
  refine ⟨?_, ?_, ?_, ?_, ?_, ?_⟩
  · intro st maxAge now hmode
    obtain ⟨mode, ⟨rows, imgs, objs⟩, mem⟩ := st
    cases mode with
    | false => simp at hmode
    | true =>
      intro row hrow
      rw [cleanup_rows_eq] at hrow
      have h1 : row ∈ rows.filter (fun row => !(row.status == "completed")) :=
        List.mem_of_mem_filter hrow
      have h2 : (!(row.status == "completed")) = true := (List.mem_filter.mp h1).2
      rw [Bool.not_eq_true'] at h2
      exact beq_eq_false_iff_ne.mp h2
  · intro st maxAge now row hmode hrow hne hold
    obtain ⟨mode, ⟨rows, imgs, objs⟩, mem⟩ := st
    cases mode with
    | false => simp at hmode
    | true =>
      intro hmem'
      obtain ⟨row', hrow', heq⟩ := List.mem_map.mp hmem'
      rw [cleanup_rows_eq] at hrow'
      have hnotold : (!((((rows.filter (fun row => !(row.status == "completed"))).filter
          (fun row => decide (maxAge < now - (row.created_at : ℚ)))).map
            (fun row => row.session_id)).contains row'.session_id)) = true :=
        (List.mem_filter.mp hrow').2
      rw [Bool.not_eq_true'] at hnotold
      have hkept : row ∈ rows.filter (fun row => !(row.status == "completed")) :=
        List.mem_filter.mpr ⟨hrow, by rw [beq_eq_false_iff_ne.mpr hne]; rfl⟩
      have holdmem : row ∈ (rows.filter (fun row => !(row.status == "completed"))).filter
          (fun row => decide (maxAge < now - (row.created_at : ℚ))) :=
        List.mem_filter.mpr ⟨hkept, decide_eq_true hold⟩
      have hin : row.session_id ∈ ((rows.filter (fun row => !(row.status == "completed"))).filter
          (fun row => decide (maxAge < now - (row.created_at : ℚ)))).map
            (fun row => row.session_id) := List.mem_map_of_mem _ holdmem
      rw [heq] at hnotold
      have : (((rows.filter (fun row => !(row.status == "completed"))).filter
          (fun row => decide (maxAge < now - (row.created_at : ℚ)))).map
            (fun row => row.session_id)).contains row.session_id = true :=
        List.elem_iff.mpr hin
      rw [this] at hnotold
      exact absurd hnotold (by decide)
  · intro st maxAge now row hmode hnd hrow hne hfresh
    exact gc_keeps_fresh st maxAge now row hmode hnd hrow hne hfresh
  · intro st maxAge now p hmode
    exact gc_mem_iff st maxAge now p hmode
  · intro st sid status s maxAge now now' hmode hmem hfresh
    obtain ⟨mode, db, mem⟩ := st
    cases mode with
    | true => simp at hmode
    | false =>
      have hupd : supa_update_session_status sid status now (SupaState.mk false db mem)
          = SupaState.mk false db
              (astore sid { s with status := status, created_at := pyInt now } mem) := by
        simp only [alookup] at hmem
        simp [supa_update_session_status, hmem]
      rw [hupd]
      exact (gc_mem_iff _ maxAge now' _ rfl).mpr
        ⟨mem_astore_self sid _ mem, hfresh⟩
  · intro st sid status row maxAge now now' hmode hnd hrow hsid hne hfresh
    obtain ⟨mode, ⟨rows, imgs, objs⟩, mem⟩ := st
    cases mode with
    | false => simp at hmode
    | true =>
      have hmap : (supa_update_session_status sid status now
          (SupaState.mk true (SupabaseDB.mk rows imgs objs) mem)).db.multipdf_sessions
          = rows.map (fun r => if r.session_id = sid then
              { r with status := status, updated_at := pyInt now, created_at := pyInt now }
            else r) := rfl
      have hmode' : (supa_update_session_status sid status now
          (SupaState.mk true (SupabaseDB.mk rows imgs objs) mem)).use_supabase = true := rfl
      apply gc_keeps_fresh _ maxAge now' _ hmode'
      · rw [hmap, List.map_map]
        have hcongr : rows.map ((fun r : SBSessionRow => r.session_id) ∘
            (fun r => if r.session_id = sid then
              { r with status := status, updated_at := pyInt now, created_at := pyInt now }
            else r)) = rows.map (fun r => r.session_id) := by
          apply List.map_congr_left
          intro a _
          by_cases h : a.session_id = sid
          · rw [Function.comp_apply, if_pos h]
          · rw [Function.comp_apply, if_neg h]
        rw [hcongr]
        exact hnd
      · rw [hmap]
        have := List.mem_map_of_mem (fun r : SBSessionRow => if r.session_id = sid then
            { r with status := status, updated_at := pyInt now, created_at := pyInt now }
          else r) hrow
        dsimp only at this
        rw [if_pos hsid] at this
        exact this
      · exact hne
      · exact hfresh

/-- Counterexample for C5: the in-memory store's sweep ignores `status` — a
`completed` but fresh memory session survives a GC pass unchanged, although
the claim requires every completed session deleted in every backend. -/
theorem gc_pass_deletes_and_preserves_cex :
    supa_cleanup_old_sessions 1800 100 (SupaState.mk false (SupabaseDB.mk [] [] [])
        [("s1", MemSession.mk 1 "completed" [] 100)])
      = SupaState.mk false (SupabaseDB.mk [] [] [])
          [("s1", MemSession.mk 1 "completed" [] 100)] ∧
    (MemSession.mk 1 "completed" [] 100).status = "completed" := by
  constructor
  · have h0 : supa_cleanup_old_sessions 1800 100 (SupaState.mk false (SupabaseDB.mk [] [] [])
        [("s1", MemSession.mk 1 "completed" [] 100)])
        = SupaState.mk false (SupabaseDB.mk [] [] [])
            (memSweep 1800 100 [("s1", MemSession.mk 1 "completed" [] 100)]) := rfl
    rw [h0, memSweep]
    norm_num
  · rfl

/-- Witness for C5: the memory-sweep membership criterion at a concrete
store — a fresh record is kept iff it is in the store and within the TTL. -/
theorem gc_pass_deletes_and_preserves_witness :
    ("s1", MemSession.mk 1 "collecting" [] 90)
        ∈ (supa_cleanup_old_sessions 1800 100 (SupaState.mk false (SupabaseDB.mk [] [] [])
            [("s1", MemSession.mk 1 "collecting" [] 90)])).memory_store ↔
      ("s1", MemSession.mk 1 "collecting" [] 90)
          ∈ [("s1", MemSession.mk 1 "collecting" [] 90)] ∧
        ¬((1800 : ℚ) < 100 - ((MemSession.mk 1 "collecting" [] 90).created_at : ℚ)) :=
  gc_pass_deletes_and_preserves.2.2.2.1
    (SupaState.mk false (SupabaseDB.mk [] [] []) [("s1", MemSession.mk 1 "collecting" [] 90)])
    1800 100 ("s1", MemSession.mk 1 "collecting" [] 90) rfl

/-! ### Claim C4 -/

/-- C4: the adapter fixes its backend at construction — Redis when the
supplied cache reports `is_enabled` then, else Supabase when supplied, else
memory sentinels — and `storage_type` names the choice.  The first
conjunct is the construction rule; the next three give, per mode, the
behaviour of every operation; the last is scenario D's `storage_type`.
The claim's "forwards every operation" is amended: `update_metadata` is
forwarded only in Redis mode — with Supabase chosen it returns `False`
and touches no backend (counterexample) — and the Supabase
`delete_session` branch, though it mutates the backend, reports the
callee's implicit `None`, i.e. a falsy result. -/
theorem session_adapter_forwards :
    (∀ (r : RedisStorage) (hs : Bool),
      (mkAdapter (some r) hs).use_redis = r.enabled ∧
      (mkAdapter none hs).use_redis = false ∧
      (mkAdapter (some r) hs).has_supabase = hs) ∧
    (∀ (ad : Adapter) (bs : SessionBackends), ad.use_redis = true →
      adapter_storage_type ad = "redis" ∧
      (∀ (uid : Int) (meta : List (String × String)) (now : ℚ),
        adapter_create_session ad uid meta now bs
          = ((redis_create_session uid (pyInt now) meta bs.redis).1,
              { bs with redis := (redis_create_session uid (pyInt now) meta bs.redis).2 })) ∧
      (∀ uid : Int, adapter_get_user_session ad uid bs = redis_get_user_session uid bs.redis) ∧
      (∀ (sid image_path : String) (order : Int) (now : ℚ),
        adapter_add_image ad sid image_path order now bs
          = ((redis_add_image sid image_path order (pyInt now) bs.redis).1,
              { bs with redis := (redis_add_image sid image_path order (pyInt now) bs.redis).2 })) ∧
      (∀ sid : String,
        adapter_get_session_images ad sid bs = redis_get_session_images sid bs.redis) ∧
      (∀ sid : String, adapter_delete_session ad sid bs
          = ((redis_delete_session sid bs.redis).1,
              { bs with redis := (redis_delete_session sid bs.redis).2 })) ∧
      (∀ (sid : String) (m : List (String × String)),
        adapter_update_metadata ad sid m bs
          = ((redis_update_metadata sid m bs.redis).1,
              { bs with redis := (redis_update_metadata sid m bs.redis).2 }))) ∧
    (∀ (ad : Adapter) (bs : SessionBackends), ad.use_redis = false → ad.has_supabase = true →
      adapter_storage_type ad = "supabase" ∧
      (∀ (uid : Int) (meta : List (String × String)) (now : ℚ),
        adapter_create_session ad uid meta now bs
          = (some (supa_create_session uid now bs.supa).1,
              { bs with supa := (supa_create_session uid now bs.supa).2 })) ∧
      (∀ uid : Int, adapter_get_user_session ad uid bs = supa_get_user_session uid bs.supa) ∧
      (∀ (sid image_path : String) (order : Int) (now : ℚ),
        adapter_add_image ad sid image_path order now bs
          = ((supa_add_image sid image_path order now bs.supa).1,
              { bs with supa := (supa_add_image sid image_path order now bs.supa).2 })) ∧
      (∀ sid : String,
        adapter_get_session_images ad sid bs = supa_get_session_images sid bs.supa) ∧
      (∀ sid : String, adapter_delete_session ad sid bs
          = (false, { bs with supa := supa_delete_session sid bs.supa })) ∧
      (∀ (sid : String) (m : List (String × String)),
        adapter_update_metadata ad sid m bs = (false, bs))) ∧
    (∀ (ad : Adapter) (bs : SessionBackends), ad.use_redis = false → ad.has_supabase = false →
      adapter_storage_type ad = "memory" ∧
      (∀ (uid : Int) (meta : List (String × String)) (now : ℚ),
        adapter_create_session ad uid meta now bs = (none, bs)) ∧
      (∀ uid : Int, adapter_get_user_session ad uid bs = none) ∧
      (∀ (sid image_path : String) (order : Int) (now : ℚ),
        adapter_add_image ad sid image_path order now bs = (false, bs)) ∧
      (∀ sid : String, adapter_get_session_images ad sid bs = []) ∧
      (∀ sid : String, adapter_delete_session ad sid bs = (false, bs)) ∧
      (∀ (sid : String) (m : List (String × String)),
        adapter_update_metadata ad sid m bs = (false, bs))) ∧
    (∀ r : RedisStorage, r.enabled = false →
      adapter_storage_type (mkAdapter (some r) true) = "supabase") := by
  refine ⟨?_, ?_, ?_, ?_, ?_⟩
  · intro r hs
    exact ⟨rfl, rfl, rfl⟩
  · intro ad bs hr
    refine ⟨?_, ?_, ?_, ?_, ?_, ?_, ?_⟩
    · rw [adapter_storage_type, if_pos hr]
    · intro uid meta now
      rw [adapter_create_session, if_pos hr]
    · intro uid
      rw [adapter_get_user_session, if_pos hr]
    · intro sid image_path order now
      rw [adapter_add_image, if_pos hr]
    · intro sid
      rw [adapter_get_session_images, if_pos hr]
    · intro sid
      rw [adapter_delete_session, if_pos hr]
    · intro sid m
      rw [adapter_update_metadata, if_pos hr]
  · intro ad bs hr hsup
    have hnr : ¬(ad.use_redis = true) := by rw [hr]; exact Bool.false_ne_true
    refine ⟨?_, ?_, ?_, ?_, ?_, ?_, ?_⟩
    · rw [adapter_storage_type, if_neg hnr, if_pos hsup]
    · intro uid meta now
      rw [adapter_create_session, if_neg hnr, if_pos hsup]
    · intro uid
      rw [adapter_get_user_session, if_neg hnr, if_pos hsup]
    · intro sid image_path order now
      rw [adapter_add_image, if_neg hnr, if_pos hsup]
    · intro sid
      rw [adapter_get_session_images, if_neg hnr, if_pos hsup]
    · intro sid
      rw [adapter_delete_session, if_neg hnr, if_pos hsup]
    · intro sid m
      rw [adapter_update_metadata, if_neg hnr]
  · intro ad bs hr hsup
    have hnr : ¬(ad.use_redis = true) := by rw [hr]; exact Bool.false_ne_true
    have hns : ¬(ad.has_supabase = true) := by rw [hsup]; exact Bool.false_ne_true
    refine ⟨?_, ?_, ?_, ?_, ?_, ?_, ?_⟩
    · rw [adapter_storage_type, if_neg hnr, if_neg hns]
    · intro uid meta now
      rw [adapter_create_session, if_neg hnr, if_neg hns]
    · intro uid
      rw [adapter_get_user_session, if_neg hnr, if_neg hns]
    · intro sid image_path order now
      rw [adapter_add_image, if_neg hnr, if_neg hns]
    · intro sid
      rw [adapter_get_session_images, if_neg hnr, if_neg hns]
    · intro sid
      rw [adapter_delete_session, if_neg hnr, if_neg hns]
    · intro sid m
      rw [adapter_update_metadata, if_neg hnr]
  · intro r hr
    rw [adapter_storage_type]
    rw [if_neg (show ¬((mkAdapter (some r) true).use_redis = true) by
      rw [mkAdapter]
      dsimp only
      rw [hr]
      exact Bool.false_ne_true)]
    exact if_pos rfl

/-- Counterexample for C4: with the cache unavailable and Supabase chosen
(`storage_type` = "supabase"), `update_metadata` on an existing session is
not forwarded: it returns `False` and leaves both backends untouched,
whereas the same call through a Redis-chosen adapter succeeds. -/
theorem session_adapter_forwards_cex :
    adapter_storage_type (mkAdapter (some (RedisStorage.mk false (RedisDB.mk
        [("s", RedisSession.mk 1 0 [] [])] [(1, "s")]))) true) = "supabase" ∧
    adapter_update_metadata (mkAdapter (some (RedisStorage.mk false (RedisDB.mk
        [("s", RedisSession.mk 1 0 [] [])] [(1, "s")]))) true) "s" [("k", "v")]
        (SessionBackends.mk (RedisStorage.mk false (RedisDB.mk
          [("s", RedisSession.mk 1 0 [] [])] [(1, "s")]))
          (SupaState.mk true (SupabaseDB.mk [] [] []) []))
      = (false, SessionBackends.mk (RedisStorage.mk false (RedisDB.mk
          [("s", RedisSession.mk 1 0 [] [])] [(1, "s")]))
          (SupaState.mk true (SupabaseDB.mk [] [] []) [])) ∧
    (adapter_update_metadata (mkAdapter (some (RedisStorage.mk true (RedisDB.mk
        [("s", RedisSession.mk 1 0 [] [])] [(1, "s")]))) true) "s" [("k", "v")]
        (SessionBackends.mk (RedisStorage.mk true (RedisDB.mk
          [("s", RedisSession.mk 1 0 [] [])] [(1, "s")]))
          (SupaState.mk true (SupabaseDB.mk [] [] []) []))).1 = true := by
  refine ⟨rfl, ?_, ?_⟩
  · decide
  · decide

/-- Witness for C4 at concrete inputs: a disabled cache with Supabase
configured yields a "supabase" adapter whose `create_session` forwards to
the Supabase backend. -/
theorem session_adapter_forwards_witness :
    adapter_storage_type (mkAdapter (some (RedisStorage.mk false (RedisDB.mk [] []))) true)
        = "supabase" ∧
    adapter_create_session (mkAdapter (some (RedisStorage.mk false (RedisDB.mk [] []))) true)
        7 [] 5 (SessionBackends.mk (RedisStorage.mk false (RedisDB.mk [] []))
          (SupaState.mk true (SupabaseDB.mk [] [] []) []))
      = (some (supa_create_session 7 5 (SupaState.mk true (SupabaseDB.mk [] [] []) [])).1,
          SessionBackends.mk (RedisStorage.mk false (RedisDB.mk [] []))
            ((supa_create_session 7 5 (SupaState.mk true (SupabaseDB.mk [] [] []) [])).2)) := by
  have h := session_adapter_forwards.2.2.1
    (mkAdapter (some (RedisStorage.mk false (RedisDB.mk [] []))) true)
    (SessionBackends.mk (RedisStorage.mk false (RedisDB.mk [] []))
      (SupaState.mk true (SupabaseDB.mk [] [] []) []))
    rfl rfl
  exact ⟨h.1, h.2.1 7 [] 5⟩
